import Mathlib

/-!
# Verification of the Dungeon Crawl 4 simulation core

Shallow embedding of the real-time simulation loop of the most advanced
dungeon-crawler variant in this repository ("Dungeon Crawl 4.py"), together
with proofs and refutations of the specified properties.

Conventions of the embedding:
* Python `int` fields become `Int` (or `Nat` where the code keeps them
  non-negative by construction, e.g. `xp`, `level`, `wave`).
* Python `float` quantities (positions, timers, multipliers) become `ℚ`.
  The literal `1.35` is embedded as the exact rational `27/20`; the IEEE
  double closest to 1.35 is `27/20 · (1 + δ)` with `δ < 2⁻⁵²`, and
  `int(t * 1.35)` agrees with `⌊t · 27/20⌋` for every magnitude the game
  can reach.  Similarly `1.28 = 32/25`, `0.66 = 33/50`, `1.15 = 23/20`.
* `v.length() <= r` on pygame vectors is embedded as
  `0 ≤ r ∧ dist2 ≤ r²`, and `v.length() < r` as `0 < r ∧ dist2 < r²`,
  which are equivalent to the square-root comparisons over the reals.
* Calls to `random.*` are passed in as explicit oracle arguments (the
  sampled candidate list, the rolled damage, the dodge outcome, …).
* Rendering, particles, floating texts and sounds are one-way outputs the
  simulation never reads back; they are not part of the state.
* `vel += (e.pos - pr.pos).normalize() * 300` (projectile knock-back) uses
  an irrational normalisation; it only influences cosmetic drift of the
  velocity field and no verified property, and is left out of the enemy
  velocity update.
-/

namespace DungeonCrawl

/-- Python `int()` on a rational: truncation toward zero. -/
def pyInt (q : ℚ) : Int := if 0 ≤ q then ⌊q⌋ else -⌊-q⌋

/-- Squared Euclidean distance between two points. -/
def dist2 (ax ay bx bY : ℚ) : ℚ := (ax - bx) * (ax - bx) + (ay - bY) * (ay - bY)

/-! ## Shield / hp damage order

Embeds the damage application at `update_projectiles` (hostile branch,
lines 3766–3772) and `update_enemies` (touch damage, lines 3720–3726):

    dmg = ...
    if p.shield > 0:
        absorb = min(p.shield, dmg)
        p.shield -= absorb
        dmg -= absorb
    if dmg > 0:
        p.hp -= dmg
-/

/-- Shield-first damage application; returns `(shield', hp')`. -/
def applyShieldDamage (shield hp dmg : Int) : Int × Int :=
  let sd : Int × Int :=
    if 0 < shield then
      let absorb := min shield dmg
      (shield - absorb, dmg - absorb)
    else (shield, dmg)
  if 0 < sd.2 then (sd.1, hp - sd.2) else (sd.1, hp)

/-- Closed form of `applyShieldDamage` when the shield is up. -/
lemma applyShieldDamage_pos (s hp d : Int) (hs : 0 < s) :
    applyShieldDamage s hp d =
      (s - min s d, if 0 < d - min s d then hp - (d - min s d) else hp) := by
  simp only [applyShieldDamage, if_pos hs]
  split <;> rfl

/-! ## Level-up loop (`on_enemy_dead`, lines 3930–3941)

    self.player.xp += 6 + self.wave
    while self.player.xp >= self.player.xp_to_next:
        self.player.xp -= self.player.xp_to_next
        self.player.level += 1
        self.player.xp_to_next = int(self.player.xp_to_next * 1.35)
        self.player.hp = min(self.player.max_hp(), self.player.hp + 30)
        self.player.mana = min(self.player.max_mana(), self.player.mana + 20)
        self.player.stat_points += STAT_POINTS_PER_LEVEL
        self.player.skill_points += SKILL_POINTS_PER_LEVEL
-/

/-- The levelling-relevant slice of the player during `on_enemy_dead`. -/
structure LevelUpSt where
  xp : Nat
  xpToNext : Nat
  level : Nat
  hp : Int
  mana : Int
  statPoints : Nat
  skillPoints : Nat
  deriving Repr, DecidableEq

/-- `Player.max_hp()`: `PLAYER_HP + 10*level + vitality*3 + mods["bonus_hp"]`. -/
def maxHpOf (vitality bonusHp : Int) (level : Nat) : Int :=
  140 + 10 * (level : Int) + vitality * 3 + bonusHp

/-- `Player.max_mana()`: `PLAYER_MANA + 8*level + energy*4 + mods["bonus_mana"]`. -/
def maxManaOf (energy bonusMana : Int) (level : Nat) : Int :=
  80 + 8 * (level : Int) + energy * 4 + bonusMana

/-- One iteration of the `while xp >= xp_to_next` body.  The growth
`int(xp_to_next * 1.35)` is `xpToNext * 27 / 20` in exact arithmetic. -/
def levelUpOnce (vit bHp en bMana : Int) (s : LevelUpSt) : LevelUpSt :=
  { xp := s.xp - s.xpToNext
    xpToNext := s.xpToNext * 27 / 20
    level := s.level + 1
    hp := min (maxHpOf vit bHp (s.level + 1)) (s.hp + 30)
    mana := min (maxManaOf en bMana (s.level + 1)) (s.mana + 20)
    statPoints := s.statPoints + 5
    skillPoints := s.skillPoints + 1 }

/-- Fuelled form of the `while` loop; `fuel > xp` suffices because each
iteration removes `xpToNext ≥ 1` from `xp`. -/
def levelLoopGo (vit bHp en bMana : Int) : Nat → LevelUpSt → LevelUpSt
  | 0, s => s
  | fuel + 1, s =>
    if s.xpToNext ≤ s.xp then
      levelLoopGo vit bHp en bMana fuel (levelUpOnce vit bHp en bMana s)
    else s

/-- The complete level-up loop as executed by `on_enemy_dead`. -/
def levelLoop (vit bHp en bMana : Int) (s : LevelUpSt) : LevelUpSt :=
  levelLoopGo vit bHp en bMana (s.xp + 1) s

/-- XP handling of `on_enemy_dead`: gain `6 + wave` xp, then run the loop. -/
def onEnemyDeadXp (vit bHp en bMana : Int) (wave : Nat) (s : LevelUpSt) : LevelUpSt :=
  levelLoop vit bHp en bMana { s with xp := s.xp + (6 + wave) }

/-! ## Enemies, Elites and the aura pass (`update_enemies`, lines 3570–3586)

    for e in self.enemies:
        e.mult_speed = 1.0
        e.mult_damage = 1.0
        e.mult_taken = 1.0
    for e in self.enemies:
        if isinstance(e, Elite) and e.alive:
            e.aura_pulse += dt * 2.0
            aura = AURAS[e.aura]
            for m in self.enemies:
                if m is e or not m.alive:
                    continue
                if (m.pos - e.pos).length() <= e.aura_radius:
                    m.mult_speed *= aura["speed"]
                    m.mult_damage *= aura["damage"]
                    m.mult_taken *= aura["taken"]
-/

/-- Elite aura kinds (the `AURAS` table, line 1406). -/
inductive AuraKind
  | haste
  | frenzy
  | guardian
  deriving Repr, DecidableEq

/-- `AURAS[a]["speed"]` — haste is 1.28. -/
def auraSpeed : AuraKind → ℚ
  | .haste => 32 / 25
  | _ => 1

/-- `AURAS[a]["damage"]` — frenzy is 1.35. -/
def auraDamage : AuraKind → ℚ
  | .frenzy => 27 / 20
  | _ => 1

/-- `AURAS[a]["taken"]` — guardian is 0.66. -/
def auraTaken : AuraKind → ℚ
  | .guardian => 33 / 50
  | _ => 1

/-- An element of `self.enemies`.  `aura = some _` marks an `Elite`
(which carries `aura_radius` and `aura_pulse`), `isBoss` marks a `Boss`.
Defaults follow the dataclass defaults / `spawn_enemy`. -/
structure EnemyM where
  posx : ℚ := 0
  posy : ℚ := 0
  velx : ℚ := 0
  vely : ℚ := 0
  radius : ℚ := 20
  hp : Int := 40
  maxHp : Int := 40
  dmgMin : Int := 4
  dmgMax : Int := 8
  speed : ℚ := 150
  knockback : ℚ := 0
  alive : Bool := true
  kind : Nat := 0
  multSpeed : ℚ := 1
  multDamage : ℚ := 1
  multTaken : ℚ := 1
  shotCd : ℚ := 0
  hitFlash : ℚ := 0
  aura : Option AuraKind := none
  auraRadius : ℚ := 300
  auraPulse : ℚ := 0
  isBoss : Bool := false
  deriving Repr, DecidableEq

/-- Index-aware map, used to embed in-place updates of `self.enemies`
that must skip or special-case one identity (`m is e`). -/
def mapWithIdx (f : Nat → α → α) : Nat → List α → List α
  | _, [] => []
  | i, x :: xs => f i x :: mapWithIdx f (i + 1) xs

lemma mapWithIdx_get? (f : Nat → α → α) :
    ∀ (i j : Nat) (xs : List α),
      (mapWithIdx f i xs)[j]? = (xs[j]?).map (f (i + j)) := by
  intro i j xs
  induction xs generalizing i j with
  | nil => simp [mapWithIdx]
  | cons x xs ih =>
    cases j with
    | zero => simp [mapWithIdx]
    | succ j =>
      rw [mapWithIdx, List.getElem?_cons_succ, List.getElem?_cons_succ,
        ih (i + 1) j]
      have h : i + 1 + j = i + (j + 1) := by omega
      rw [h]

lemma mapWithIdx_length (f : Nat → α → α) :
    ∀ (i : Nat) (xs : List α), (mapWithIdx f i xs).length = xs.length := by
  intro i xs
  induction xs generalizing i with
  | nil => rfl
  | cons x xs ih => simp [mapWithIdx, ih]

/-- The multiplier reset at the top of every `update_enemies` tick. -/
def resetMults (es : List EnemyM) : List EnemyM :=
  es.map fun e => { e with multSpeed := 1, multDamage := 1, multTaken := 1 }

/-- Body of the aura pass for the living Elite `e` at index `i`:
`e.aura_pulse += dt*2`, and every other living enemy within the aura
radius gets the three factors multiplied in.  The radius comparison
`(m.pos - e.pos).length() <= e.aura_radius` is embedded squared. -/
def eliteAuraApply (dt : ℚ) (i : Nat) (e : EnemyM) (a : AuraKind)
    (es : List EnemyM) : List EnemyM :=
  mapWithIdx (fun j m =>
    if j = i then { m with auraPulse := m.auraPulse + dt * 2 }
    else if m.alive = false then m
    else if 0 ≤ e.auraRadius ∧
            dist2 m.posx m.posy e.posx e.posy ≤ e.auraRadius * e.auraRadius then
      { m with multSpeed := m.multSpeed * auraSpeed a
               multDamage := m.multDamage * auraDamage a
               multTaken := m.multTaken * auraTaken a }
    else m) 0 es

/-- One step of the outer `for e in self.enemies` loop of the aura pass. -/
def auraPassStep (dt : ℚ) (es : List EnemyM) (i : Nat) : List EnemyM :=
  match es[i]? with
  | none => es
  | some e =>
    match e.aura with
    | none => es
    | some a => if e.alive then eliteAuraApply dt i e a es else es

/-- The whole aura-propagation pass over `self.enemies`. -/
def auraPass (dt : ℚ) (es : List EnemyM) : List EnemyM :=
  (List.range es.length).foldl (auraPassStep dt) es

/-- The fields of an enemy the aura pass reads but never writes. -/
def staticProj (e : EnemyM) : ℚ × ℚ × Bool × Option AuraKind × ℚ :=
  (e.posx, e.posy, e.alive, e.aura, e.auraRadius)

/-- Pointwise agreement of the static fields of two enemy lists. -/
def staticAgree (xs ys : List EnemyM) : Prop :=
  xs.length = ys.length ∧
  ∀ j : Nat, (xs[j]?).map staticProj = (ys[j]?).map staticProj

/-- The factor the aura of the enemy at index `i` multiplies into the
multipliers of the (distinct) enemy at index `j`, as the code computes
it; `1` whenever no multiplication happens. -/
def auraContrib (f : AuraKind → ℚ) (es : List EnemyM) (j i : Nat) : ℚ :=
  match es[i]?, es[j]? with
  | some e, some m =>
    match e.aura with
    | some a =>
      if i ≠ j ∧ e.alive = true ∧ m.alive = true ∧ 0 ≤ e.auraRadius ∧
         dist2 m.posx m.posy e.posx e.posy ≤ e.auraRadius * e.auraRadius
      then f a else 1
    | none => 1
  | _, _ => 1

lemma staticAgree_get {acc es0 : List EnemyM} (hA : staticAgree acc es0)
    (j : Nat) (m : EnemyM) (h : acc[j]? = some m) :
    ∃ m0, es0[j]? = some m0 ∧ m.posx = m0.posx ∧ m.posy = m0.posy ∧
      m.alive = m0.alive ∧ m.aura = m0.aura ∧ m.auraRadius = m0.auraRadius := by
  obtain ⟨hAlen, hApt⟩ := hA
  have hj := hApt j
  rw [h] at hj
  cases h0 : es0[j]? with
  | none => rw [h0] at hj; simp at hj
  | some m0 =>
    rw [h0] at hj
    simp only [Option.map_some', Option.some.injEq, staticProj, Prod.mk.injEq] at hj
    exact ⟨m0, rfl, hj.1, hj.2.1, hj.2.2.1, hj.2.2.2.1, hj.2.2.2.2⟩

lemma staticAgree_none {acc es0 : List EnemyM} (hA : staticAgree acc es0)
    (j : Nat) (h : acc[j]? = none) : es0[j]? = none := by
  obtain ⟨hAlen, hApt⟩ := hA
  have hj := hApt j
  rw [h] at hj
  cases h0 : es0[j]? with
  | none => rfl
  | some m0 => rw [h0] at hj; simp at hj

lemma eliteAuraApply_get? (dt : ℚ) (i : Nat) (e : EnemyM) (a : AuraKind)
    (es : List EnemyM) (j : Nat) :
    (eliteAuraApply dt i e a es)[j]? = (es[j]?).map (fun m =>
      if j = i then { m with auraPulse := m.auraPulse + dt * 2 }
      else if m.alive = false then m
      else if 0 ≤ e.auraRadius ∧
              dist2 m.posx m.posy e.posx e.posy ≤ e.auraRadius * e.auraRadius then
        { m with multSpeed := m.multSpeed * auraSpeed a
                 multDamage := m.multDamage * auraDamage a
                 multTaken := m.multTaken * auraTaken a }
      else m) := by
  unfold eliteAuraApply
  rw [mapWithIdx_get?]
  rw [Nat.zero_add]

lemma auraPassStep_eq_none {acc : List EnemyM} {i : Nat} (dt : ℚ)
    (h : acc[i]? = none) : auraPassStep dt acc i = acc := by
  simp only [auraPassStep, h]

lemma auraPassStep_eq_noAura {acc : List EnemyM} {i : Nat} {e : EnemyM} (dt : ℚ)
    (h : acc[i]? = some e) (ha : e.aura = none) :
    auraPassStep dt acc i = acc := by
  simp only [auraPassStep, h, ha]

lemma auraPassStep_eq_dead {acc : List EnemyM} {i : Nat} {e : EnemyM}
    {a : AuraKind} (dt : ℚ) (h : acc[i]? = some e) (ha : e.aura = some a)
    (hd : ¬ e.alive = true) : auraPassStep dt acc i = acc := by
  simp only [auraPassStep, h, ha]
  rw [if_neg hd]

lemma auraPassStep_eq_apply {acc : List EnemyM} {i : Nat} {e : EnemyM}
    {a : AuraKind} (dt : ℚ) (h : acc[i]? = some e) (ha : e.aura = some a)
    (hl : e.alive = true) :
    auraPassStep dt acc i = eliteAuraApply dt i e a acc := by
  simp only [auraPassStep, h, ha]
  rw [if_pos hl]

lemma auraPassStep_length (dt : ℚ) (acc : List EnemyM) (i : Nat) :
    (auraPassStep dt acc i).length = acc.length := by
  cases hi : acc[i]? with
  | none => rw [auraPassStep_eq_none dt hi]
  | some e =>
    cases ha : e.aura with
    | none => rw [auraPassStep_eq_noAura dt hi ha]
    | some a =>
      by_cases he : e.alive = true
      · rw [auraPassStep_eq_apply dt hi ha he]
        unfold eliteAuraApply
        exact mapWithIdx_length _ 0 acc
      · rw [auraPassStep_eq_dead dt hi ha he]

lemma auraContrib_emitter_none {es0 : List EnemyM} {i : Nat}
    (f : AuraKind → ℚ) (j : Nat) (h : es0[i]? = none) :
    auraContrib f es0 j i = 1 := by
  cases hj : es0[j]? <;> simp [auraContrib, h, hj]

lemma auraContrib_noAura {es0 : List EnemyM} {i : Nat} {e : EnemyM}
    (f : AuraKind → ℚ) (j : Nat) (h : es0[i]? = some e)
    (ha : e.aura = none) : auraContrib f es0 j i = 1 := by
  cases hj : es0[j]? <;> simp [auraContrib, h, hj, ha]

lemma auraContrib_cond {es0 : List EnemyM} {i j : Nat} {e m : EnemyM}
    {a : AuraKind} (f : AuraKind → ℚ) (h : es0[i]? = some e)
    (hj : es0[j]? = some m) (ha : e.aura = some a) :
    auraContrib f es0 j i =
      if i ≠ j ∧ e.alive = true ∧ m.alive = true ∧ 0 ≤ e.auraRadius ∧
         dist2 m.posx m.posy e.posx e.posy ≤ e.auraRadius * e.auraRadius
      then f a else 1 := by
  simp only [auraContrib, h, hj, ha]

/-- Effect of one outer-loop step on the enemy at index `j`: its three
multipliers each gain exactly the factor `auraContrib _ es0 j i`, and its
static fields are untouched. -/
lemma auraPassStep_mults (dt : ℚ) {es0 : List EnemyM} (acc : List EnemyM)
    (hA : staticAgree acc es0) (i j : Nat) (m2 : EnemyM)
    (h : (auraPassStep dt acc i)[j]? = some m2) :
    ∃ m1, acc[j]? = some m1 ∧ staticProj m2 = staticProj m1 ∧
      m2.multSpeed = m1.multSpeed * auraContrib auraSpeed es0 j i ∧
      m2.multDamage = m1.multDamage * auraContrib auraDamage es0 j i ∧
      m2.multTaken = m1.multTaken * auraContrib auraTaken es0 j i := by
  cases hi : acc[i]? with
  | none =>
    rw [auraPassStep_eq_none dt hi] at h
    have h1 : es0[i]? = none := staticAgree_none hA i hi
    refine ⟨m2, h, rfl, ?_, ?_, ?_⟩ <;>
      rw [auraContrib_emitter_none _ j h1, mul_one]
  | some e =>
    obtain ⟨e0, he0, hex, hey, healive, heaura, herad⟩ := staticAgree_get hA i e hi
    cases ha : e.aura with
    | none =>
      rw [auraPassStep_eq_noAura dt hi ha] at h
      have ha0 : e0.aura = none := by rw [← heaura, ha]
      refine ⟨m2, h, rfl, ?_, ?_, ?_⟩ <;>
        rw [auraContrib_noAura _ j he0 ha0, mul_one]
    | some a =>
      have ha0 : e0.aura = some a := by rw [← heaura, ha]
      by_cases he : e.alive = true
      case neg =>
        rw [auraPassStep_eq_dead dt hi ha he] at h
        have he0alive : ¬ e0.alive = true := by rw [← healive]; exact he
        have hc : ∀ f : AuraKind → ℚ, auraContrib f es0 j i = 1 := by
          intro f
          cases hj0 : es0[j]? with
          | none => cases hmatch : es0[i]? <;> simp [auraContrib, hj0, hmatch]
          | some m0 =>
            rw [auraContrib_cond f he0 hj0 ha0, if_neg]
            intro hcon
            exact he0alive hcon.2.1
        refine ⟨m2, h, rfl, ?_, ?_, ?_⟩ <;> rw [hc, mul_one]
      case pos =>
        rw [auraPassStep_eq_apply dt hi ha he, eliteAuraApply_get?] at h
        cases hj : acc[j]? with
        | none => rw [hj] at h; simp at h
        | some m1 =>
          rw [hj] at h
          simp only [Option.map_some', Option.some.injEq] at h
          obtain ⟨m0, hm0, hmx, hmy, hmalive, hmaura, hmrad⟩ :=
            staticAgree_get hA j m1 hj
          have he0alive : e0.alive = true := by rw [← healive]; exact he
          have hcontrib : ∀ f : AuraKind → ℚ, auraContrib f es0 j i =
              if i ≠ j ∧ m1.alive = true ∧ 0 ≤ e.auraRadius ∧
                 dist2 m1.posx m1.posy e.posx e.posy ≤ e.auraRadius * e.auraRadius
              then f a else 1 := by
            intro f
            rw [auraContrib_cond f he0 hm0 ha0]
            rw [hex, hey, herad, hmx, hmy, hmalive, he0alive]
            simp only [true_and]
          refine ⟨m1, rfl, ?_⟩
          by_cases hji : j = i
          · rw [if_pos hji] at h
            have hc : ∀ f : AuraKind → ℚ, auraContrib f es0 j i = 1 := by
              intro f
              rw [hcontrib f, if_neg]
              intro hcon
              exact hcon.1 hji.symm
            rw [← h]
            exact ⟨rfl, by rw [hc, mul_one], by rw [hc, mul_one],
              by rw [hc, mul_one]⟩
          · rw [if_neg hji] at h
            by_cases hal : m1.alive = false
            · rw [if_pos hal] at h
              have hc : ∀ f : AuraKind → ℚ, auraContrib f es0 j i = 1 := by
                intro f
                rw [hcontrib f, if_neg]
                intro hcon
                rw [hal] at hcon
                exact Bool.false_ne_true hcon.2.1
              rw [← h]
              exact ⟨rfl, by rw [hc, mul_one], by rw [hc, mul_one],
                by rw [hc, mul_one]⟩
            · rw [if_neg hal] at h
              have hal1 : m1.alive = true := by
                cases hv : m1.alive
                · exact absurd hv hal
                · rfl
              by_cases hcov : 0 ≤ e.auraRadius ∧
                  dist2 m1.posx m1.posy e.posx e.posy ≤ e.auraRadius * e.auraRadius
              · rw [if_pos hcov] at h
                have hij : i ≠ j := fun hh => hji hh.symm
                have hc : ∀ f : AuraKind → ℚ, auraContrib f es0 j i = f a := by
                  intro f
                  rw [hcontrib f, if_pos ⟨hij, hal1, hcov.1, hcov.2⟩]
                rw [← h]
                exact ⟨rfl, by rw [hc], by rw [hc], by rw [hc]⟩
              · rw [if_neg hcov] at h
                have hc : ∀ f : AuraKind → ℚ, auraContrib f es0 j i = 1 := by
                  intro f
                  rw [hcontrib f, if_neg]
                  intro hcon
                  exact hcov ⟨hcon.2.2.1, hcon.2.2.2⟩
                rw [← h]
                exact ⟨rfl, by rw [hc, mul_one], by rw [hc, mul_one],
                  by rw [hc, mul_one]⟩

lemma auraPassStep_staticAgree (dt : ℚ) {es0 : List EnemyM}
    (acc : List EnemyM) (hA : staticAgree acc es0) (i : Nat) :
    staticAgree (auraPassStep dt acc i) es0 := by
  have hAlen : acc.length = es0.length := hA.1
  constructor
  · rw [auraPassStep_length]; exact hAlen
  · intro j
    cases h : (auraPassStep dt acc i)[j]? with
    | none =>
      have hnone : acc[j]? = none := by
        have hlen := List.getElem?_eq_none_iff.1 h
        rw [auraPassStep_length] at hlen
        exact List.getElem?_eq_none_iff.2 hlen
      rw [staticAgree_none hA j hnone]
    | some m2 =>
      obtain ⟨m1, h1, hstat, _, _, _⟩ := auraPassStep_mults dt acc hA i j m2 h
      have hj := hA.2 j
      rw [h1] at hj
      rw [← hj]
      show some (staticProj m2) = some (staticProj m1)
      rw [hstat]

/-- Folding the outer loop over any index list multiplies each enemy's
multipliers by the product of the per-index contributions. -/
lemma auraPass_fold (dt : ℚ) (es0 : List EnemyM) :
    ∀ (L : List Nat) (acc : List EnemyM), staticAgree acc es0 →
      ∀ j m2, (L.foldl (auraPassStep dt) acc)[j]? = some m2 →
        ∃ m1, acc[j]? = some m1 ∧
          m2.multSpeed = m1.multSpeed * (L.map (auraContrib auraSpeed es0 j)).prod ∧
          m2.multDamage = m1.multDamage * (L.map (auraContrib auraDamage es0 j)).prod ∧
          m2.multTaken = m1.multTaken * (L.map (auraContrib auraTaken es0 j)).prod := by
  intro L
  induction L with
  | nil =>
    intro acc _ j m2 h
    exact ⟨m2, h, by simp, by simp, by simp⟩
  | cons i L ih =>
    intro acc hA j m2 h
    rw [List.foldl_cons] at h
    obtain ⟨mMid, hMid, hs, hd, ht⟩ :=
      ih (auraPassStep dt acc i) (auraPassStep_staticAgree dt acc hA i) j m2 h
    obtain ⟨m1, h1, _, hs1, hd1, ht1⟩ := auraPassStep_mults dt acc hA i j mMid hMid
    refine ⟨m1, h1, ?_, ?_, ?_⟩
    · rw [List.map_cons, List.prod_cons, hs, hs1, mul_assoc]
    · rw [List.map_cons, List.prod_cons, hd, hd1, mul_assoc]
    · rw [List.map_cons, List.prod_cons, ht, ht1, mul_assoc]

lemma resetMults_get? (es : List EnemyM) (j : Nat) :
    (resetMults es)[j]? = (es[j]?).map
      (fun e => { e with multSpeed := 1, multDamage := 1, multTaken := 1 }) :=
  List.getElem?_map _ _ _

lemma resetMults_staticAgree (es : List EnemyM) :
    staticAgree (resetMults es) es := by
  constructor
  · exact List.length_map _ _
  · intro j
    rw [resetMults_get?]
    cases es[j]? <;> rfl

/-- **C2 (amended).** On every tick of `update_enemies`, each enemy's
speed/damage/damage-taken multiplier is first reset to 1 and then, after
the aura pass, equals exactly the product of the corresponding factors of
all **other** living Elites whose aura radius covers that enemy
(overlapping auras compose multiplicatively) — in particular exactly 1
for an enemy covered by no Elite aura.  The code's `m is e` skip means an
Elite's own aura never applies to itself, which is the one correction to
the claim. -/
theorem aura_multipliers_are_products (dt : ℚ) (es : List EnemyM)
    (j : Nat) (m2 : EnemyM)
    (h : (auraPass dt (resetMults es))[j]? = some m2) :
    m2.multSpeed =
      ((List.range es.length).map (auraContrib auraSpeed es j)).prod ∧
    m2.multDamage =
      ((List.range es.length).map (auraContrib auraDamage es j)).prod ∧
    m2.multTaken =
      ((List.range es.length).map (auraContrib auraTaken es j)).prod := by
  unfold auraPass at h
  have hlen : (resetMults es).length = es.length := List.length_map _ _
  rw [hlen] at h
  obtain ⟨m1, h1, hs, hd, ht⟩ :=
    auraPass_fold dt es (List.range es.length) (resetMults es)
      (resetMults_staticAgree es) j m2 h
  rw [resetMults_get? es j] at h1
  cases h0 : es[j]? with
  | none => rw [h0] at h1; simp at h1
  | some m0 =>
    rw [h0] at h1
    simp only [Option.map_some', Option.some.injEq] at h1
    have h1s : m1.multSpeed = 1 := by rw [← h1]
    have h1d : m1.multDamage = 1 := by rw [← h1]
    have h1t : m1.multTaken = 1 := by rw [← h1]
    exact ⟨by rw [hs, h1s, one_mul], by rw [hd, h1d, one_mul],
      by rw [ht, h1t, one_mul]⟩

/-- A living haste Elite at the origin and an ordinary enemy 100 px away
(inside the 300 px aura radius). -/
def auraWitnessEnemies : List EnemyM :=
  [{ aura := some AuraKind.haste }, { posx := 100 }]

/-- Witness for **C2**: in `auraWitnessEnemies` the covered enemy ends the
pass with speed multiplier 1.28, matching the aura product. -/
theorem aura_multipliers_are_products_witness :
    ({ posx := 100, multSpeed := 32 / 25 : EnemyM }).multSpeed =
      ((List.range auraWitnessEnemies.length).map
        (auraContrib auraSpeed auraWitnessEnemies 1)).prod :=
  (aura_multipliers_are_products 1 auraWitnessEnemies 1 _ (by
    norm_num [auraPass, auraWitnessEnemies, resetMults, auraPassStep,
      eliteAuraApply, mapWithIdx, dist2, auraSpeed, auraDamage, auraTaken,
      List.range_succ])).1

/-- The product the claim prescribes for the stat-`f` multiplier of the
enemy at index `j`: the factors of **all** living Elites whose aura
radius covers that enemy.  Taken verbatim from the claim's words, i.e.
without the code's `m is e` self-exclusion. -/
def claimAuraProduct (f : AuraKind → ℚ) (es : List EnemyM) (j : Nat) : ℚ :=
  ((List.range es.length).map (fun i =>
    match es[i]?, es[j]? with
    | some e, some m =>
      match e.aura with
      | some a =>
        if e.alive = true ∧ m.alive = true ∧ 0 ≤ e.auraRadius ∧
           dist2 m.posx m.posy e.posx e.posy ≤ e.auraRadius * e.auraRadius
        then f a else 1
      | none => 1
    | _, _ => 1)).prod

/-- A single living frenzy Elite, alone in the enemy list. -/
def soloFrenzyElite : List EnemyM := [{ aura := some AuraKind.frenzy }]

/-- **C2 counterexample.** A lone living frenzy Elite is covered by its own
aura (distance 0 ≤ radius 300), so the claim's product for its damage
multiplier is 1.35; but the code's aura pass skips `m is e`, leaving the
Elite's own damage multiplier at exactly 1 after the tick. -/
theorem aura_self_coverage_counterexample :
    ((auraPass 1 (resetMults soloFrenzyElite))[0]?).map EnemyM.multDamage
        = some 1 ∧
    claimAuraProduct auraDamage soloFrenzyElite 0 = 27 / 20 ∧
    ((1 : ℚ) = 27 / 20 → False) := by
  refine ⟨?_, ?_, by norm_num⟩
  · norm_num [auraPass, soloFrenzyElite, resetMults, auraPassStep,
      eliteAuraApply, mapWithIdx, dist2, auraSpeed, auraDamage, auraTaken,
      List.range_succ]
  · norm_num [claimAuraProduct, soloFrenzyElite, dist2, auraDamage,
      List.range_succ]

/-! ## Player, weapons and loot (`update_loot`, lines 3876–3928) -/

/-- The weapon fields the simulation core reads. -/
structure WeaponM where
  dmgMin : Int := 6
  dmgMax : Int := 10
  bonusHp : Int := 0
  bonusMana : Int := 0
  deriving Repr, DecidableEq

/-- Elemental infusion kinds. -/
inductive Infusion
  | fire
  | ice
  | lightning
  deriving Repr, DecidableEq

/-- The player.  `lifeSteal` and `dodgeChance` stand for the derived
`calc_life_steal()` / `calc_dodge_chance()` values (weapon mods plus
skills), which the combat code only reads. -/
structure PlayerM where
  posx : ℚ := 0
  posy : ℚ := 0
  hp : Int := 140
  mana : Int := 80
  level : Nat := 1
  xp : Nat := 0
  xpToNext : Nat := 40
  gold : Int := 0
  potionsHp : Int := 1
  potionsMana : Int := 1
  weapon : WeaponM := {}
  inventory : List WeaponM := []
  dmgMult : ℚ := 1
  dmgTimer : ℚ := 0
  shield : Int := 0
  iframes : ℚ := 0
  radius : ℚ := 20
  infusionType : Option Infusion := none
  infusionTimer : ℚ := 0
  vitality : Int := 12
  energy : Int := 8
  lifeSteal : ℚ := 0
  dodgeChance : ℚ := 0
  deriving Repr, DecidableEq

/-- `Player.max_hp()` of a player state. -/
def playerMaxHp (p : PlayerM) : Int :=
  maxHpOf p.vitality p.weapon.bonusHp p.level

/-- A loot drop (`Loot` dataclass, line 1786). -/
structure LootM where
  posx : ℚ := 0
  posy : ℚ := 0
  gold : Int := 0
  potionHp : Bool := false
  potionMana : Bool := false
  weapon : Option WeaponM := none
  dmgBoost : Bool := false
  shieldBoost : Bool := false
  infusion : Option Infusion := none
  ttl : ℚ := 30
  bobPhase : ℚ := 0
  deriving Repr, DecidableEq

/-- The payload application of `update_loot` (lines 3881–3925): every
non-empty payload field is applied unconditionally — gold, potions, the
weapon auto-equip (inventory cap `INV_COLS * INV_ROWS = 40`), the damage
boost (`DMG_BOOST_MULT = 1.6`, `DMG_BOOST_TIME = 8`), the shield refresh
(`SHIELD_POINTS = 70`) and the infusion (`INFUSION_DURATION = 15`). -/
def applyLootPickup (pl : PlayerM) (l : LootM) : PlayerM :=
  let pl := if l.gold ≠ 0 then { pl with gold := pl.gold + l.gold } else pl
  let pl := if l.potionHp then { pl with potionsHp := pl.potionsHp + 1 } else pl
  let pl :=
    if l.potionMana then { pl with potionsMana := pl.potionsMana + 1 } else pl
  let pl :=
    match l.weapon with
    | some w =>
      if ((pl.weapon.dmgMin : ℚ) + (pl.weapon.dmgMax : ℚ)) / 2 <
          ((w.dmgMin : ℚ) + (w.dmgMax : ℚ)) / 2 then
        { pl with
          inventory :=
            if pl.inventory.length < 40 then pl.inventory ++ [pl.weapon]
            else pl.inventory
          weapon := w }
      else if pl.inventory.length < 40 then
        { pl with inventory := pl.inventory ++ [w] }
      else pl
    | none => pl
  let pl := if l.dmgBoost then { pl with dmgMult := 8 / 5, dmgTimer := 8 } else pl
  let pl := if l.shieldBoost then { pl with shield := max pl.shield 70 } else pl
  match l.infusion with
  | some inf => { pl with infusionType := some inf, infusionTimer := 15 }
  | none => pl

/-- One iteration of the `for l in self.loots` loop: `l.ttl -= dt`,
`l.bob_phase += dt*3`, and on proximity (`< 24` px) the payload is applied
and the ttl forced to 0.  Note the pickup branch checks only the distance,
never the (possibly already elapsed) ttl. -/
def updateLootStep (dt : ℚ) (pl : PlayerM) (l : LootM) : PlayerM × LootM :=
  let l := { l with ttl := l.ttl - dt, bobPhase := l.bobPhase + dt * 3 }
  if dist2 l.posx l.posy pl.posx pl.posy < 576 then
    (applyLootPickup pl l, { l with ttl := 0 })
  else (pl, l)

/-- The whole `update_loot` pass: fold the per-loot step over the list,
then drop every loot with `ttl ≤ 0`. -/
def updateLoot (dt : ℚ) (pl : PlayerM) (loots : List LootM) :
    PlayerM × List LootM :=
  let r := loots.foldl
    (fun (acc : PlayerM × List LootM) (l : LootM) =>
      let s := updateLootStep dt acc.1 l
      (s.1, acc.2 ++ [s.2])) (pl, [])
  (r.1, r.2.filter (fun l => 0 < l.ttl))

/-- **C5 counterexample.** The pickup branch of `update_loot` checks only
the distance, never the ttl: running the routine on an already-consumed
loot entity (`ttl = 0`) lying in pickup range hands its 5 gold to the
player a second time — the player's state does change. -/
theorem loot_repickup_counterexample :
    (updateLoot 1 {} [{ gold := 5, ttl := 0 }]).1.gold = 5 ∧
    ({} : PlayerM).gold = 0 ∧ (5 : Int) ≠ 0 := by
  refine ⟨?_, rfl, by norm_num⟩
  norm_num [updateLoot, updateLootStep, applyLootPickup, dist2]

/-- **C5 (amended).** The routine itself is not guarded on ttl, but (a)
every loot surviving a `update_loot` call has `ttl > 0`, so a consumed
entity is never presented to the routine again by the game loop, and (b)
an already-consumed loot entity outside pickup range has no effect on
the player. -/
theorem loot_pickup_amended (dt : ℚ) (pl : PlayerM) (loots : List LootM) :
    (∀ l ∈ (updateLoot dt pl loots).2, 0 < l.ttl) ∧
    (∀ l : LootM, l.ttl ≤ 0 →
      ¬ dist2 l.posx l.posy pl.posx pl.posy < 576 →
      (updateLootStep dt pl l).1 = pl) := by
  constructor
  · intro l hl
    unfold updateLoot at hl
    simp only at hl
    have h2 := (List.mem_filter.1 hl).2
    simpa using h2
  · intro l _ hfar
    dsimp only [updateLootStep]
    rw [if_neg hfar]

/-- Witness for **C5 (amended)**: the post-list of the counterexample call
contains only live loot, and a far-away consumed loot leaves the default
player untouched. -/
theorem loot_pickup_amended_witness :
    (∀ l ∈ (updateLoot 1 {} [{ gold := 5, ttl := 0 }]).2, 0 < l.ttl) ∧
    (updateLootStep 1 {} { gold := 5, ttl := 0, posx := 100 }).1 = {} :=
  ⟨(loot_pickup_amended 1 {} [{ gold := 5, ttl := 0 }]).1,
   (loot_pickup_amended 1 {} []).2 { gold := 5, ttl := 0, posx := 100 }
     (by norm_num) (by norm_num [dist2])⟩

/-! ## Projectiles, dungeon, game state -/

/-- A projectile (`Projectile` dataclass, line 1799).  The render-only
`angle` field (an `atan2`, irrational) is omitted. -/
structure ProjM where
  posx : ℚ := 0
  posy : ℚ := 0
  velx : ℚ := 0
  vely : ℚ := 0
  dmg : Int := 10
  ttl : ℚ := 1
  radius : ℚ := 6
  pierce : Int := 1
  hostile : Bool := false
  trailTimer : ℚ := 0
  isArrow : Bool := false
  infusion : Option Infusion := none
  deriving Repr, DecidableEq

/-- A rectangular room (a `pygame.Rect`, in tile units). -/
structure Room where
  left : Int
  top : Int
  w : Int
  h : Int
  deriving Repr, DecidableEq

/-- `Dungeon.center(rect)`: `(left + w // 2, top + h // 2)` with Python
floor division. -/
def roomCenter (r : Room) : Int × Int :=
  (r.left + Int.fdiv r.w 2, r.top + Int.fdiv r.h 2)

/-- The dungeon slice the simulation reads: the tile grid (0 = `FLOOR`,
1 = `WALL`), the room list and the fog-of-war `seen` grid.  A freshly
constructed `Dungeon(...)` has `seen` all-false. -/
structure DungeonM where
  tiles : Int → Int → Int
  rooms : List Room
  seen : Int → Int → Bool

/-- `Dungeon.is_solid_at_px` (lines 2141–2146): out-of-bounds counts as
solid; `TILE = 48`, `MAP_W = 180`, `MAP_H = 140`. -/
def solidAtPx (d : DungeonM) (px py : ℚ) : Bool :=
  let tx := ⌊px / 48⌋
  let ty := ⌊py / 48⌋
  if tx < 0 ∨ ty < 0 ∨ 180 ≤ tx ∨ 140 ≤ ty then true
  else d.tiles tx ty == 1

/-- `Dungeon.mark_seen_radius` (lines 2148–2159) with the default 320 px
radius: every tile in the clamped index window whose centre lies within
320 px of `pos` becomes seen; all other tiles keep their state. -/
def markSeenRadius (d : DungeonM) (px py : ℚ) : DungeonM :=
  { d with
    seen := fun tx ty =>
      if max 0 ⌊(px - 320) / 48⌋ ≤ tx ∧ tx ≤ min 179 ⌊(px + 320) / 48⌋ ∧
         max 0 ⌊(py - 320) / 48⌋ ≤ ty ∧ ty ≤ min 139 ⌊(py + 320) / 48⌋ ∧
         dist2 ((tx : ℚ) * 48 + 24) ((ty : ℚ) * 48 + 24) px py ≤ 102400 then
        true
      else d.seen tx ty }

/-- The `Game` attributes the verified routines touch.  `goblinActive`
stands for `treasure_goblin is not None`; `diffHp`/`diffDmg`/`diffSpeed`
are the selected `DIFFICULTY` multipliers; chests and crates are kept as
opaque tile positions. -/
structure GameSt where
  level : Nat := 1
  biome : String := "crypt"
  dungeon : DungeonM
  player : PlayerM := {}
  enemies : List EnemyM := []
  projectiles : List ProjM := []
  loots : List LootM := []
  wave : Nat := 1
  spawnTimer : ℚ := 6
  bossSpawned : Bool := false
  goblinActive : Bool := false
  diffHp : ℚ := 1
  diffDmg : ℚ := 1
  diffSpeed : ℚ := 1
  chests : List (Int × Int) := []
  crates : List (Int × Int) := []

/-- `spawn_boss` (lines 3139–3155): gated on `current_level % 5 == 0` and
the `boss_spawned` flag; on success appends a Boss at the centre of the
last room and sets the flag.  `shotCd` is the sampled
`random.uniform(*BOSS_SHOT_CD)`; `BOSS_HP = 600`, `BOSS_DMG = (8, 14)`,
`speed = ENEMY_SPEED * 0.9 = 135`, `boss_scale = 1 + (level//5 - 1)*0.3`. -/
def spawnBoss (shotCd : ℚ) (s : GameSt) : GameSt :=
  if s.level % 5 ≠ 0 ∨ s.bossSpawned = true then s
  else
    let r := s.dungeon.rooms.getLastD { left := 0, top := 0, w := 1, h := 1 }
    let c := roomCenter r
    let bossScale : ℚ := 1 + (((s.level / 5 : Nat) : ℚ) - 1) * (3 / 10)
    let hp := pyInt (600 * s.diffHp * bossScale)
    let b : EnemyM :=
      { posx := (c.1 : ℚ) * 48 + 24
        posy := (c.2 : ℚ) * 48 + 24
        radius := 34
        hp := hp
        maxHp := hp
        dmgMin := pyInt (8 * s.diffDmg * bossScale)
        dmgMax := pyInt (14 * s.diffDmg * bossScale)
        speed := 135 * s.diffSpeed
        kind := 1
        shotCd := shotCd
        isBoss := true }
    { s with enemies := s.enemies ++ [b], bossSpawned := true }

/-- `next_level` (lines 4132–4162).  The freshly generated
`Dungeon(level+1, biome)` is passed in as `newTiles`/`newRooms` (dungeon
generation is randomized; a fresh dungeon starts with `seen` all-false);
`newChests`/`newCrates` stand for the `_spawn_chests`/`_spawn_crates`
output.  Clears all dynamic entity lists, moves the player to the first
room's centre (map centre `(90, 70)` when no room exists), resets wave
and spawn timer, re-reveals fog around the player, and clears the
boss-spawned flag. -/
def nextLevel (destBiome : Option String) (newTiles : Int → Int → Int)
    (newRooms : List Room) (newChests newCrates : List (Int × Int))
    (s : GameSt) : GameSt :=
  let d0 : DungeonM :=
    { tiles := newTiles, rooms := newRooms, seen := fun _ _ => false }
  let c := match newRooms with
    | r :: _ => roomCenter r
    | [] => (90, 70)
  let px : ℚ := (c.1 : ℚ) * 48 + 24
  let py : ℚ := (c.2 : ℚ) * 48 + 24
  { s with
    level := s.level + 1
    biome := destBiome.getD s.biome
    dungeon := markSeenRadius d0 px py
    player := { s.player with posx := px, posy := py }
    enemies := []
    projectiles := []
    loots := []
    goblinActive := false
    chests := newChests
    crates := newCrates
    wave := 1
    spawnTimer := 6
    bossSpawned := false }

/-- An all-wall, room-less dungeon used for concrete runs. -/
def emptyDungeon : DungeonM :=
  { tiles := fun _ _ => 1, rooms := [], seen := fun _ _ => false }

/-- The operations of a run that touch the boss gate: spawner ticks that
reach `spawn_boss`, and level transitions. -/
inductive BossOp
  | spawn (shotCd : ℚ)
  | next (newTiles : Int → Int → Int) (newRooms : List Room)
      (newChests newCrates : List (Int × Int))

/-- Run a sequence of operations from a state, counting how many times
`spawn_boss` passes its gate and actually appends a boss. -/
def runBossOps : GameSt → List BossOp → GameSt × Nat
  | s, [] => (s, 0)
  | s, BossOp.spawn c :: ops =>
    let spawned := if s.level % 5 = 0 ∧ s.bossSpawned = false then 1 else 0
    let r := runBossOps (spawnBoss c s) ops
    (r.1, spawned + r.2)
  | s, BossOp.next t rs cs crs :: ops =>
    runBossOps (nextLevel none t rs cs crs s) ops

/-- Four transitions to depth 5, a spawner tick, five more transitions to
depth 10, another spawner tick. -/
def bossRunOps : List BossOp :=
  [BossOp.next (fun _ _ => 1) [] [] [], BossOp.next (fun _ _ => 1) [] [] [],
   BossOp.next (fun _ _ => 1) [] [] [], BossOp.next (fun _ _ => 1) [] [] [],
   BossOp.spawn 1,
   BossOp.next (fun _ _ => 1) [] [] [], BossOp.next (fun _ _ => 1) [] [] [],
   BossOp.next (fun _ _ => 1) [] [] [], BossOp.next (fun _ _ => 1) [] [] [],
   BossOp.next (fun _ _ => 1) [] [] [],
   BossOp.spawn 1]

/-- **C6 counterexample.** One run, no restart: starting at depth 1, the
boss gate passes at depth 5, and — because `next_level` resets
`boss_spawned` to `False` (line 4155) — passes again at depth 10, so two
bosses are spawned in the same run. -/
theorem boss_spawned_twice_counterexample :
    (runBossOps { dungeon := emptyDungeon } bossRunOps).2 = 2 ∧
    (2 : Nat) ≠ 1 := by
  exact ⟨rfl, by norm_num⟩

/-- **C6 (amended).** The spawn is gated on depth `% 5 == 0` together with
the `boss_spawned` flag, so within one level re-checking the gate on
subsequent ticks never produces a second boss: `spawn_boss` is
idempotent, and a state whose flag is already set is left unchanged.
Each level transition however resets the flag, so the boss spawns once
per boss depth (5, 10, …), not exactly once per run. -/
theorem boss_spawn_idempotent (s : GameSt) (c1 c2 : ℚ) :
    spawnBoss c2 (spawnBoss c1 s) = spawnBoss c1 s ∧
    (s.bossSpawned = true → spawnBoss c1 s = s) := by
  have hclosed : ∀ (c : ℚ) (t : GameSt),
      (t.level % 5 ≠ 0 ∨ t.bossSpawned = true) → spawnBoss c t = t := by
    intro c t h
    rw [spawnBoss, if_pos h]
  by_cases h : s.level % 5 ≠ 0 ∨ s.bossSpawned = true
  · rw [hclosed c1 s h, hclosed c2 s h]
    exact ⟨rfl, fun _ => rfl⟩
  · obtain ⟨h1, h2⟩ := not_or.1 h
    have hflag : (spawnBoss c1 s).bossSpawned = true := by
      rw [spawnBoss, if_neg h]
    exact ⟨hclosed c2 (spawnBoss c1 s) (Or.inr hflag),
      fun hb => absurd hb h2⟩

/-- Witness for **C6 (amended)**: a state with the flag already set is
left unchanged by `spawn_boss`. -/
theorem boss_spawn_idempotent_witness :
    spawnBoss 1 { dungeon := emptyDungeon, bossSpawned := true } =
      { dungeon := emptyDungeon, bossSpawned := true } :=
  (boss_spawn_idempotent { dungeon := emptyDungeon, bossSpawned := true }
    1 1).2 rfl

lemma floor_tile_low (tx : Int) :
    ⌊(((tx : ℚ) * 48 + 24) - 320) / 48⌋ = tx - 7 := by
  rw [show (((tx : ℚ) * 48 + 24) - 320) / 48 = (tx : ℚ) + (-37) / 6 by ring]
  rw [Int.floor_int_add]
  norm_num
  omega

lemma floor_tile_high (tx : Int) :
    ⌊(((tx : ℚ) * 48 + 24) + 320) / 48⌋ = tx + 7 := by
  rw [show (((tx : ℚ) * 48 + 24) + 320) / 48 = (tx : ℚ) + 43 / 6 by ring]
  rw [Int.floor_int_add]
  norm_num

lemma dist2_self (x y : ℚ) : dist2 x y x y = 0 := by
  simp [dist2]

/-- Marking around a tile centre reveals that tile, provided it is inside
the clamping window of the map. -/
lemma markSeenRadius_self (d : DungeonM) (tx ty : Int)
    (hx : 0 ≤ tx) (hx2 : tx ≤ 179) (hy : 0 ≤ ty) (hy2 : ty ≤ 139) :
    (markSeenRadius d ((tx : ℚ) * 48 + 24) ((ty : ℚ) * 48 + 24)).seen tx ty
      = true := by
  dsimp only [markSeenRadius]
  rw [if_pos]
  refine ⟨?_, ?_, ?_, ?_, ?_⟩
  · rw [floor_tile_low, max_le_iff]; omega
  · rw [floor_tile_high, le_min_iff]; omega
  · rw [floor_tile_low, max_le_iff]; omega
  · rw [floor_tile_high, le_min_iff]; omega
  · rw [dist2_self]; norm_num

/-- Tiles whose centre is farther than the reveal radius keep their
previous fog state. -/
lemma markSeenRadius_far (d : DungeonM) (px py : ℚ) (tx ty : Int)
    (h : ¬ dist2 ((tx : ℚ) * 48 + 24) ((ty : ℚ) * 48 + 24) px py ≤ 102400) :
    (markSeenRadius d px py).seen tx ty = d.seen tx ty := by
  dsimp only [markSeenRadius]
  rw [if_neg]
  intro hcon
  exact h hcon.2.2.2.2

/-- **C8.** Immediately after `next_level` completes, the enemy,
projectile and loot lists are empty, the player's position equals the
centre of the new dungeon's first room, the wave counter is reset to its
initial value 1, and the fog-of-war is freshly reset (tiles beyond the
320 px reveal radius are unseen) and re-revealed around the new player
position (the player's own tile is seen). -/
theorem next_level_postcondition (destBiome : Option String)
    (newTiles : Int → Int → Int) (newRooms : List Room)
    (newChests newCrates : List (Int × Int)) (s : GameSt) (r : Room)
    (rest : List Room) (hr : newRooms = r :: rest)
    (hx : 0 ≤ (roomCenter r).1) (hx2 : (roomCenter r).1 ≤ 179)
    (hy : 0 ≤ (roomCenter r).2) (hy2 : (roomCenter r).2 ≤ 139) :
    (nextLevel destBiome newTiles newRooms newChests newCrates s).enemies
        = [] ∧
    (nextLevel destBiome newTiles newRooms newChests newCrates s).projectiles
        = [] ∧
    (nextLevel destBiome newTiles newRooms newChests newCrates s).loots
        = [] ∧
    (nextLevel destBiome newTiles newRooms newChests newCrates s).wave = 1 ∧
    (nextLevel destBiome newTiles newRooms newChests newCrates s).player.posx
        = ((roomCenter r).1 : ℚ) * 48 + 24 ∧
    (nextLevel destBiome newTiles newRooms newChests newCrates s).player.posy
        = ((roomCenter r).2 : ℚ) * 48 + 24 ∧
    (nextLevel destBiome newTiles newRooms newChests newCrates s).dungeon.seen
        (roomCenter r).1 (roomCenter r).2 = true ∧
    (∀ tx ty : Int,
      ¬ dist2 ((tx : ℚ) * 48 + 24) ((ty : ℚ) * 48 + 24)
          (((roomCenter r).1 : ℚ) * 48 + 24)
          (((roomCenter r).2 : ℚ) * 48 + 24) ≤ 102400 →
      (nextLevel destBiome newTiles newRooms newChests newCrates
          s).dungeon.seen tx ty = false) := by
  subst hr
  refine ⟨rfl, rfl, rfl, rfl, rfl, rfl, ?_, ?_⟩
  · exact markSeenRadius_self _ _ _ hx hx2 hy hy2
  · intro tx ty hfar
    exact markSeenRadius_far _ _ _ tx ty hfar

/-- Witness for **C8**: a concrete transition into a one-room dungeon. -/
theorem next_level_postcondition_witness :
    (nextLevel none (fun _ _ => 0) [{ left := 10, top := 10, w := 6, h := 6 }]
        [] [] { dungeon := emptyDungeon }).enemies = [] ∧
    (nextLevel none (fun _ _ => 0) [{ left := 10, top := 10, w := 6, h := 6 }]
        [] [] { dungeon := emptyDungeon }).player.posx
      = ((roomCenter { left := 10, top := 10, w := 6, h := 6 }).1 : ℚ) * 48
          + 24 :=
  have h := next_level_postcondition none (fun _ _ => 0)
    [{ left := 10, top := 10, w := 6, h := 6 }] [] []
    { dungeon := emptyDungeon } { left := 10, top := 10, w := 6, h := 6 } []
    rfl (by decide) (by decide) (by decide) (by decide)
  ⟨h.1, h.2.2.2.2.1⟩

/-! ## Spawn placement (`_random_floor_pos`, lines 3026–3042)

    tries = 0
    while tries < max_tries:
        ... sample (tx, ty) ...
        if self.dungeon.tiles[tx][ty] == FLOOR:
            pos = Vec(tx * TILE + TILE / 2, ty * TILE + TILE / 2)
            if (pos - self.player.pos).length() > 200:
                return pos
        tries += 1
    return self.player.pos + Vec(random.randint(-240, 240), random.randint(-240, 240))
-/

/-- The acceptance test of the rejection-sampling loop: the candidate
tile is `FLOOR` and its centre is more than 200 px from the player. -/
def floorPosAccept (d : DungeonM) (px py : ℚ) (c : Int × Int) : Bool :=
  d.tiles c.1 c.2 == 0 &&
    decide (40000 < dist2 ((c.1 : ℚ) * 48 + 24) ((c.2 : ℚ) * 48 + 24) px py)

/-- `_random_floor_pos`: the `max_tries = 200` sampled tile candidates
are passed in as `cands` (the `near_player` branch only constrains the
sampling range, not the acceptance test); the first accepted candidate's
tile centre is returned, else the fallback `player.pos + (fbx, fby)`
with the sampled offsets `randint(-240, 240)`. -/
def randomFloorPos (d : DungeonM) (px py : ℚ) (cands : List (Int × Int))
    (fbx fby : Int) : ℚ × ℚ :=
  match cands.find? (floorPosAccept d px py) with
  | some c => ((c.1 : ℚ) * 48 + 24, (c.2 : ℚ) * 48 + 24)
  | none => (px + (fbx : ℚ), py + (fby : ℚ))

/-- **C7 counterexample.** In an all-wall dungeon every candidate is
rejected, and the fallback offset `(+240, +240)` from the player at
`(24, 24)` lands at `(264, 264)` — tile `(5, 5)`, a wall: the sampler's
fallback path can return a position inside a wall tile. -/
theorem spawn_fallback_in_wall_counterexample :
    solidAtPx emptyDungeon
      (randomFloorPos emptyDungeon 24 24 (List.replicate 200 (1, 1))
        240 240).1
      (randomFloorPos emptyDungeon 24 24 (List.replicate 200 (1, 1))
        240 240).2 = true := by
  have hnone : (List.replicate 200 ((1 : Int), (1 : Int))).find?
      (floorPosAccept emptyDungeon 24 24) = none := by
    rw [List.find?_eq_none]
    intro x hx
    rw [List.eq_of_mem_replicate hx]
    norm_num [floorPosAccept, emptyDungeon]
  rw [show (randomFloorPos emptyDungeon 24 24 (List.replicate 200 (1, 1))
      240 240) = ((24 : ℚ) + 240, (24 : ℚ) + 240) by
    simp only [randomFloorPos, hnone]
    norm_num]
  norm_num [solidAtPx, emptyDungeon]

/-- **C7 (amended).** Whenever the bounded rejection-sampling loop
accepts a candidate within its `max_tries` budget, the returned spawn
position is the centre of a `FLOOR` tile more than 200 px from the
player — never inside a wall.  Only the fallback path taken after all
tries fail returns an unconstrained offset position, which may lie
inside a wall (and "reachable" is not checked anywhere). -/
theorem spawn_loop_success_on_floor (d : DungeonM) (px py : ℚ)
    (cands : List (Int × Int)) (fbx fby : Int) (c : Int × Int)
    (h : cands.find? (floorPosAccept d px py) = some c) :
    randomFloorPos d px py cands fbx fby
        = ((c.1 : ℚ) * 48 + 24, (c.2 : ℚ) * 48 + 24) ∧
    d.tiles c.1 c.2 = 0 ∧
    40000 < dist2 ((c.1 : ℚ) * 48 + 24) ((c.2 : ℚ) * 48 + 24) px py := by
  have hacc := List.find?_some h
  rw [floorPosAccept] at hacc
  simp only [Bool.and_eq_true, beq_iff_eq, decide_eq_true_eq] at hacc
  exact ⟨by simp only [randomFloorPos, h], hacc.1, hacc.2⟩

/-- A dungeon whose only floor tile is `(9, 9)`. -/
def floorAt9 : DungeonM :=
  { tiles := fun tx ty => if tx = 9 ∧ ty = 9 then 0 else 1
    rooms := []
    seen := fun _ _ => false }

/-- Witness for **C7 (amended)**: the loop accepts tile `(9, 9)` and the
returned position is that floor tile's centre. -/
theorem spawn_loop_success_on_floor_witness :
    randomFloorPos floorAt9 24 24 [(9, 9)] 240 240 = (456, 456) ∧
    floorAt9.tiles 9 9 = 0 :=
  have h := spawn_loop_success_on_floor floorAt9 24 24 [(9, 9)] 240 240 (9, 9)
    (by norm_num [List.find?, floorPosAccept, floorAt9, dist2])
  ⟨by rw [h.1]; norm_num, h.2.1⟩

/-! ## Projectile update (`update_projectiles`, lines 3740–3834)

For one projectile and one tick:

    pr.ttl -= dt
    pr.pos += pr.vel * dt
    pr.trail_timer += dt                      # reset when > 0.03
    if self.dungeon.is_solid_at_px(pr.pos):
        pr.ttl = 0; continue
    if pr.hostile:  ... hit player, pr.ttl = 0 ...
    else:
        for e in self.enemies:                # hits, pierce, break
            ...
    # end of update_projectiles:
    self.projectiles = [pr for pr in self.projectiles if pr.ttl > 0]
-/

/-- The remainder of incoming damage left after shield absorption;
decides whether the `if dmg > 0` hp branch fires. -/
def shieldRemainder (shield dmg : Int) : Int :=
  if 0 < shield then dmg - min shield dmg else dmg

/-- Hostile-projectile hit on the player (lines 3760–3779): dodge roll,
shield-first damage, `iframes = max(iframes, 0.12)` only when hp was
actually reduced, and the projectile's ttl forced to 0 in every case. -/
def hostileHitPlayer (dodged : Bool) (pr : ProjM) (pl : PlayerM) :
    ProjM × PlayerM :=
  if dodged then ({ pr with ttl := 0 }, pl)
  else
    let sd := applyShieldDamage pl.shield pl.hp pr.dmg
    let pl2 :=
      if 0 < shieldRemainder pl.shield pr.dmg then
        { pl with shield := sd.1, hp := sd.2,
                  iframes := max pl.iframes (12 / 100) }
      else { pl with shield := sd.1, hp := sd.2 }
    ({ pr with ttl := 0 }, pl2)

/-- State threaded through the friendly projectile's `for e in
self.enemies` loop; `stopped` models the `break` on pierce exhaustion,
`hits` counts actual hits. -/
structure FriendlyPassSt where
  es : List EnemyM
  pl : PlayerM
  pr : ProjM
  hits : Nat
  stopped : Bool

/-- The chain-lightning scan (lines 3797–3811): index of the first other
living enemy within 150 px of the struck enemy. -/
def chainTargetIdx (es : List EnemyM) (j : Nat) (ex ey : ℚ) : Option Nat :=
  (List.range es.length).find? (fun k =>
    decide (k ≠ j) &&
    (match es[k]? with
     | some n => n.alive && decide (dist2 n.posx n.posy ex ey < 22500)
     | none => false))

/-- Processing of one actual hit of a friendly projectile on the living,
colliding enemy `m` at index `j` (lines 3785–3834): damage scaled by the
target's damage-taken multiplier (`max(1, int(...))`), elemental infusion
effects (fire ×1.35, lightning ×1.15 plus a chain hit of
`max(1, damage // 3)`, ice slows the target), hp and hit-flash updates,
life steal healing clamped at max hp, pierce decrement, and termination
(`ttl = 0` plus `break`) when pierce is exhausted.  The knock-back
direction (`(e.pos - pr.pos).normalize() * 300`, an irrational
normalisation) is omitted from the velocity update. -/
def applyEnemyHit (j : Nat) (st : FriendlyPassSt) (m : EnemyM) :
    FriendlyPassSt :=
  let damage : Int := max 1 (pyInt ((st.pr.dmg : ℚ) * m.multTaken))
  let damage : Int :=
    match st.pr.infusion with
    | some Infusion.fire => pyInt ((damage : ℚ) * (27 / 20))
    | some Infusion.lightning => pyInt ((damage : ℚ) * (23 / 20))
    | _ => damage
  let m :=
    match st.pr.infusion with
    | some Infusion.ice =>
      { m with velx := m.velx * (3 / 10), vely := m.vely * (3 / 10),
               multSpeed := m.multSpeed * (1 / 2) }
    | _ => m
  let es :=
    match st.pr.infusion with
    | some Infusion.lightning =>
      match chainTargetIdx st.es j m.posx m.posy with
      | some k =>
        match st.es[k]? with
        | some n =>
          st.es.set k
            { n with hp := n.hp - max 1 (Int.fdiv damage 3),
                     hitFlash := 1 / 10 }
        | none => st.es
      | none => st.es
    | _ => st.es
  let m := { m with hp := m.hp - damage, knockback := 200,
                    hitFlash := 12 / 100 }
  let es := es.set j m
  let pl :=
    if 0 < st.pl.lifeSteal then
      { st.pl with
        hp := min (playerMaxHp st.pl)
          (st.pl.hp + max 1 (pyInt ((damage : ℚ) * st.pl.lifeSteal / 100))) }
    else st.pl
  let pr2 : ProjM := { st.pr with pierce := st.pr.pierce - 1 }
  if pr2.pierce ≤ 0 then
    { es := es, pl := pl, pr := { pr2 with ttl := 0 },
      hits := st.hits + 1, stopped := true }
  else
    { es := es, pl := pl, pr := pr2, hits := st.hits + 1, stopped := false }

/-- One iteration of the friendly projectile's enemy loop: skip once the
`break` fired, skip dead enemies, hit on circle overlap
(`length < e.radius + pr.radius`, embedded squared). -/
def friendlyPassStep (st : FriendlyPassSt) (j : Nat) : FriendlyPassSt :=
  if st.stopped then st
  else
    match st.es[j]? with
    | none => st
    | some m =>
      if m.alive = false then st
      else if 0 < m.radius + st.pr.radius ∧
              dist2 m.posx m.posy st.pr.posx st.pr.posy <
                (m.radius + st.pr.radius) * (m.radius + st.pr.radius) then
        applyEnemyHit j st m
      else st

/-- The whole friendly-projectile enemy loop. -/
def friendlyPass (pr : ProjM) (es : List EnemyM) (pl : PlayerM) :
    FriendlyPassSt :=
  (List.range es.length).foldl friendlyPassStep
    { es := es, pl := pl, pr := pr, hits := 0, stopped := false }

/-- One `update_projectiles` iteration for a single projectile: ttl and
position integration, trail-timer update, wall check (`ttl = 0` on a wall
hit), then the hostile-vs-player or friendly-vs-enemies pass.  Returns
the updated projectile (removed by the end-of-tick filter iff `ttl ≤ 0`),
the enemies, the player, and the number of enemy hits this tick. -/
def projTick (d : DungeonM) (dt : ℚ) (dodged : Bool) (pr : ProjM)
    (es : List EnemyM) (pl : PlayerM) :
    ProjM × List EnemyM × PlayerM × Nat :=
  let pr := { pr with
    ttl := pr.ttl - dt
    posx := pr.posx + pr.velx * dt
    posy := pr.posy + pr.vely * dt
    trailTimer :=
      if 3 / 100 < pr.trailTimer + dt then 0 else pr.trailTimer + dt }
  if solidAtPx d pr.posx pr.posy then ({ pr with ttl := 0 }, es, pl, 0)
  else if pr.hostile then
    if (0 < pl.radius + pr.radius ∧
        dist2 pl.posx pl.posy pr.posx pr.posy <
          (pl.radius + pr.radius) * (pl.radius + pr.radius)) ∧
        pl.iframes ≤ 0 then
      let r := hostileHitPlayer dodged pr pl
      (r.1, es, r.2, 0)
    else (pr, es, pl, 0)
  else
    let r := friendlyPass pr es pl
    (r.pr, r.es, r.pl, r.hits)

/-- A treasure chest (`Chest` dataclass, line 1948; `CHEST_HP = 3`,
`kind` is `"wood"` or `"gold"`). -/
structure ChestM where
  posx : ℚ := 0
  posy : ℚ := 0
  hp : Int := 3
  alive : Bool := true
  kind : String := "wood"
  hitFlash : ℚ := 0
  deriving Repr, DecidableEq

/-- A breakable crate (`Crate` dataclass, line 1956; `CRATE_HP = 1`). -/
structure CrateM where
  posx : ℚ := 0
  posy : ℚ := 0
  hp : Int := 1
  alive : Bool := true
  hitFlash : ℚ := 0
  deriving Repr, DecidableEq

/-- Index of the first living chest the projectile overlaps
(`(chest.pos - pr.pos).length() < 20 + pr.radius`, embedded squared);
the inner chest loop `break`s after the first hit. -/
def chestHitIdx (pr : ProjM) (chests : List ChestM) : Option Nat :=
  (List.range chests.length).find? (fun k =>
    match chests[k]? with
    | some c => c.alive &&
        decide (0 < 20 + pr.radius ∧
          dist2 c.posx c.posy pr.posx pr.posy <
            (20 + pr.radius) * (20 + pr.radius))
    | none => false)

/-- The chest collision pass of `update_projectiles` (lines 3835–3853)
for one projectile: skipped for hostile or already-removed (`ttl ≤ 0`)
projectiles; otherwise the first living chest in range loses 1 hp
(breaking at 0 — `_on_chest_broken` spawns loot, outside this
projectile-centric slice) and the projectile loses 1 pierce, dying
(`ttl = 0`) when pierce is exhausted.  Returns the projectile, the chest
list, and the number of chest hits (0 or 1). -/
def chestPass (pr : ProjM) (chests : List ChestM) :
    ProjM × List ChestM × Nat :=
  if pr.hostile = true ∨ pr.ttl ≤ 0 then (pr, chests, 0)
  else
    match chestHitIdx pr chests with
    | none => (pr, chests, 0)
    | some k =>
      match chests[k]? with
      | none => (pr, chests, 0)
      | some c =>
        let c2 : ChestM := { c with hp := c.hp - 1, hitFlash := 15 / 100 }
        let c3 : ChestM :=
          if c2.hp ≤ 0 then { c2 with alive := false } else c2
        let pr2 : ProjM := { pr with pierce := pr.pierce - 1 }
        let pr3 : ProjM :=
          if pr2.pierce ≤ 0 then { pr2 with ttl := 0 } else pr2
        (pr3, chests.set k c3, 1)

/-- Index of the first living crate the projectile overlaps. -/
def crateHitIdx (pr : ProjM) (crates : List CrateM) : Option Nat :=
  (List.range crates.length).find? (fun k =>
    match crates[k]? with
    | some c => c.alive &&
        decide (0 < 20 + pr.radius ∧
          dist2 c.posx c.posy pr.posx pr.posy <
            (20 + pr.radius) * (20 + pr.radius))
    | none => false)

/-- The crate collision pass of `update_projectiles` (lines 3855–3872),
same shape as the chest pass (crates have 1 hp; `_on_crate_broken` may
trigger an explosion affecting enemies, outside this slice). -/
def cratePass (pr : ProjM) (crates : List CrateM) :
    ProjM × List CrateM × Nat :=
  if pr.hostile = true ∨ pr.ttl ≤ 0 then (pr, crates, 0)
  else
    match crateHitIdx pr crates with
    | none => (pr, crates, 0)
    | some k =>
      match crates[k]? with
      | none => (pr, crates, 0)
      | some c =>
        let c2 : CrateM := { c with hp := c.hp - 1, hitFlash := 12 / 100 }
        let c3 : CrateM :=
          if c2.hp ≤ 0 then { c2 with alive := false } else c2
        let pr2 : ProjM := { pr with pierce := pr.pierce - 1 }
        let pr3 : ProjM :=
          if pr2.pierce ≤ 0 then { pr2 with ttl := 0 } else pr2
        (pr3, crates.set k c3, 1)

/-- Result of a complete `update_projectiles` iteration for one
projectile. -/
structure ProjTickRes where
  pr : ProjM
  es : List EnemyM
  pl : PlayerM
  hits : Nat
  chests : List ChestM
  crates : List CrateM

/-- One complete `update_projectiles` tick for a single projectile: the
main pass (movement, wall, player/enemy collision — lines 3740–3834),
then the chest pass (3835–3853), then the crate pass (3855–3872); the
end-of-function filter (line 3874) removes the projectile iff the
resulting `ttl ≤ 0`.  `hits` counts every actual hit — enemies, chests
and crates — each of which decrements pierce by exactly 1. -/
def projTickFull (d : DungeonM) (dt : ℚ) (dodged : Bool) (pr : ProjM)
    (es : List EnemyM) (pl : PlayerM) (chests : List ChestM)
    (crates : List CrateM) : ProjTickRes :=
  let r := projTick d dt dodged pr es pl
  let rc := chestPass r.1 chests
  let rr := cratePass rc.1 crates
  { pr := rr.1
    es := r.2.1
    pl := r.2.2.1
    hits := r.2.2.2 + rc.2.2 + rr.2.2
    chests := rc.2.1
    crates := rr.2.1 }

/-- The environment one tick presents to a projectile. -/
structure TickEnv where
  dt : ℚ
  dodged : Bool
  es : List EnemyM
  pl : PlayerM
  chests : List ChestM
  crates : List CrateM

/-- A projectile's lifetime across ticks: apply the complete
`update_projectiles` iteration per tick until the end-of-tick `ttl > 0`
filter removes it.  Returns the surviving projectile (`none` once
removed) and the total number of hits (enemies, chests and crates). -/
def projRun (d : DungeonM) : List TickEnv → ProjM → Option ProjM × Nat
  | [], pr => (some pr, 0)
  | env :: rest, pr =>
    let r := projTickFull d env.dt env.dodged pr env.es env.pl
      env.chests env.crates
    if r.pr.ttl ≤ 0 then (none, r.hits)
    else
      let s := projRun d rest r.pr
      (s.1, r.hits + s.2)

/-! ## Other player hp operations (for the hp-bounds invariant) -/

/-- Enemy touch damage on the player (lines 3713–3732), after the gating
rolls (`2 %` trigger, dodge) whose outcomes are passed in; `dmg` is the
sampled `e.roll_damage()`.  The knock-back displacement is position-only
and omitted. -/
def touchDamagePlayer (dodged : Bool) (dmg : Int) (pl : PlayerM) : PlayerM :=
  if dodged then pl
  else
    let sd := applyShieldDamage pl.shield pl.hp dmg
    { pl with shield := sd.1, hp := sd.2 }

/-- Hazard pool damage (lines 3548–3551): rate 3 for lava else 2,
`p.hp -= max(1, int(dmg_rate * dt * 10))`. -/
def hazardDamage (isLava : Bool) (dt : ℚ) (pl : PlayerM) : PlayerM :=
  { pl with
    hp := pl.hp - max 1 (pyInt (((if isLava then 3 else 2) : ℚ) * dt * 10)) }

/-- The Q-key hp potion (lines 3424–3426): fires only when a potion is
held and hp is below max; heals `POTION_HEAL = 50` clamped at max hp. -/
def usePotionHp (pl : PlayerM) : PlayerM :=
  if 0 < pl.potionsHp ∧ pl.hp < playerMaxHp pl then
    { pl with hp := min (playerMaxHp pl) (pl.hp + 50),
              potionsHp := pl.potionsHp - 1 }
  else pl

/-- An all-floor dungeon. -/
def allFloor : DungeonM :=
  { tiles := fun _ _ => 0, rooms := [], seen := fun _ _ => false }

lemma applyShieldDamage_hp_le (s hp d : Int) :
    (applyShieldDamage s hp d).2 ≤ hp := by
  by_cases hs : 0 < s
  · rw [applyShieldDamage_pos s hp d hs]
    dsimp only
    split <;> omega
  · simp only [applyShieldDamage, if_neg hs]
    split <;> dsimp only <;> omega

lemma hostileHitPlayer_hp_le (dodged : Bool) (pr : ProjM) (pl : PlayerM) :
    (hostileHitPlayer dodged pr pl).2.hp ≤ pl.hp := by
  unfold hostileHitPlayer
  split
  · exact le_refl _
  · dsimp only
    split <;> exact applyShieldDamage_hp_le pl.shield pl.hp pr.dmg

/-- Generic foldl invariant preservation. -/
lemma foldl_inv {α β : Type _} (P : β → Prop) (f : β → α → β)
    (hstep : ∀ b a, P b → P (f b a)) :
    ∀ (L : List α) (b : β), P b → P (L.foldl f b) := by
  intro L
  induction L with
  | nil => intro b h; exact h
  | cons x xs ih => intro b h; exact ih (f b x) (hstep b x h)

lemma applyEnemyHit_pl (j : Nat) (st : FriendlyPassSt) (m : EnemyM) :
    (applyEnemyHit j st m).pl = st.pl ∨
    ∃ g : Int, (applyEnemyHit j st m).pl =
      { st.pl with hp := min (playerMaxHp st.pl) (st.pl.hp + g) } := by
  unfold applyEnemyHit
  dsimp only
  by_cases hls : 0 < st.pl.lifeSteal
  · rw [if_pos hls]
    split
    · exact Or.inr ⟨_, rfl⟩
    · exact Or.inr ⟨_, rfl⟩
  · rw [if_neg hls]
    split
    · exact Or.inl rfl
    · exact Or.inl rfl

lemma friendlyPassStep_pl_bound (pl0 : PlayerM) (st : FriendlyPassSt)
    (j : Nat)
    (h : st.pl.hp ≤ playerMaxHp pl0 ∧ playerMaxHp st.pl = playerMaxHp pl0) :
    (friendlyPassStep st j).pl.hp ≤ playerMaxHp pl0 ∧
      playerMaxHp (friendlyPassStep st j).pl = playerMaxHp pl0 := by
  unfold friendlyPassStep
  split
  · exact h
  · split
    · exact h
    · split
      · exact h
      · split
        · rcases applyEnemyHit_pl j st _ with hc | ⟨g, hc⟩
          · rw [hc]; exact h
          · rw [hc]
            constructor
            · show min (playerMaxHp st.pl) (st.pl.hp + g) ≤ playerMaxHp pl0
              calc min (playerMaxHp st.pl) (st.pl.hp + g)
                  ≤ playerMaxHp st.pl := min_le_left _ _
                _ = playerMaxHp pl0 := h.2
            · exact h.2
        · exact h

lemma friendlyPass_pl_bound (pr : ProjM) (es : List EnemyM) (pl : PlayerM)
    (h : pl.hp ≤ playerMaxHp pl) :
    (friendlyPass pr es pl).pl.hp ≤ playerMaxHp pl := by
  unfold friendlyPass
  have := foldl_inv
    (fun st : FriendlyPassSt =>
      st.pl.hp ≤ playerMaxHp pl ∧ playerMaxHp st.pl = playerMaxHp pl)
    friendlyPassStep
    (fun st j hst => friendlyPassStep_pl_bound pl st j hst)
    (List.range es.length)
    { es := es, pl := pl, pr := pr, hits := 0, stopped := false }
    ⟨h, rfl⟩
  exact this.1

/-- **C9 counterexample.** The code never clamps hp below: a hostile
projectile with 15 damage hitting the shield-less player at 5 hp drives
hp to −10 < 0 (death is detected later via `hp <= 0`, but the stored hp
is negative, contradicting the claimed `[0, max_hp]` clamp). -/
theorem player_hp_negative_counterexample :
    (projTick allFloor 0 false
        { posx := 100, posy := 100, dmg := 15, hostile := true } []
        { posx := 100, posy := 100, hp := 5 }).2.2.1.hp = -10 ∧
    (-10 : Int) < 0 := by
  constructor
  · norm_num [projTick, hostileHitPlayer, applyShieldDamage,
      shieldRemainder, solidAtPx, allFloor, dist2]
  · norm_num

/-- **C9 (amended).** Every damage application (touch damage, hazard
damage, hostile-projectile hit) only ever lowers hp — with no lower
clamp, so hp can go below 0 and death is detected via `hp <= 0` — while
every healing operation (potion, life steal inside the projectile pass)
clamps at max hp; hence hp never exceeds max_hp once it starts below it. -/
theorem player_hp_bounds :
    (∀ (dodged : Bool) (dmg : Int) (pl : PlayerM),
      (touchDamagePlayer dodged dmg pl).hp ≤ pl.hp) ∧
    (∀ (isLava : Bool) (dt : ℚ) (pl : PlayerM),
      (hazardDamage isLava dt pl).hp < pl.hp) ∧
    (∀ (dodged : Bool) (pr : ProjM) (pl : PlayerM),
      (hostileHitPlayer dodged pr pl).2.hp ≤ pl.hp) ∧
    (∀ pl : PlayerM, pl.hp ≤ playerMaxHp pl →
      (usePotionHp pl).hp ≤ playerMaxHp pl) ∧
    (∀ (d : DungeonM) (dt : ℚ) (dodged : Bool) (pr : ProjM)
        (es : List EnemyM) (pl : PlayerM), pl.hp ≤ playerMaxHp pl →
      (projTick d dt dodged pr es pl).2.2.1.hp ≤ playerMaxHp pl) := by
  refine ⟨?_, ?_, hostileHitPlayer_hp_le, ?_, ?_⟩
  · intro dodged dmg pl
    unfold touchDamagePlayer
    split
    · exact le_refl _
    · exact applyShieldDamage_hp_le pl.shield pl.hp dmg
  · intro isLava dt pl
    unfold hazardDamage
    dsimp only
    have : 1 ≤ max 1 (pyInt (((if isLava then 3 else 2) : ℚ) * dt * 10)) :=
      le_max_left _ _
    omega
  · intro pl h
    unfold usePotionHp
    split
    · exact min_le_left _ _
    · exact h
  · intro d dt dodged pr es pl h
    unfold projTick
    dsimp only
    split
    · exact h
    · split
      · split
        · calc (hostileHitPlayer dodged _ pl).2.hp ≤ pl.hp :=
              hostileHitPlayer_hp_le dodged _ pl
            _ ≤ playerMaxHp pl := h
        · exact h
      · exact friendlyPass_pl_bound _ es pl h

/-- Witness for **C9 (amended)**: the counterexample's fatal hit indeed
only lowered hp, and a healthy default player stays within max hp through
a projectile tick. -/
theorem player_hp_bounds_witness :
    (touchDamagePlayer false 15 { hp := 5 }).hp ≤ (5 : Int) ∧
    (projTick allFloor 0 false { hostile := false } [] {}).2.2.1.hp ≤
      playerMaxHp {} :=
  ⟨player_hp_bounds.1 false 15 { hp := 5 },
   player_hp_bounds.2.2.2.2 allFloor 0 false { hostile := false } [] {}
     (by norm_num [playerMaxHp, maxHpOf])⟩

lemma friendlyPassStep_eq_stopped {st : FriendlyPassSt} {j : Nat}
    (h : st.stopped = true) : friendlyPassStep st j = st := by
  rw [friendlyPassStep, if_pos h]

lemma friendlyPassStep_eq_gap {st : FriendlyPassSt} {j : Nat}
    (h : ¬ st.stopped = true) (hj : st.es[j]? = none) :
    friendlyPassStep st j = st := by
  rw [friendlyPassStep, if_neg h, hj]

lemma friendlyPassStep_eq_dead {st : FriendlyPassSt} {j : Nat} {m : EnemyM}
    (h : ¬ st.stopped = true) (hj : st.es[j]? = some m)
    (hal : m.alive = false) : friendlyPassStep st j = st := by
  rw [friendlyPassStep, if_neg h, hj]
  simp only [hal, if_pos]

lemma friendlyPassStep_eq_miss {st : FriendlyPassSt} {j : Nat} {m : EnemyM}
    (h : ¬ st.stopped = true) (hj : st.es[j]? = some m)
    (hal : ¬ m.alive = false)
    (hcol : ¬ (0 < m.radius + st.pr.radius ∧
      dist2 m.posx m.posy st.pr.posx st.pr.posy <
        (m.radius + st.pr.radius) * (m.radius + st.pr.radius))) :
    friendlyPassStep st j = st := by
  rw [friendlyPassStep, if_neg h, hj]
  simp only [if_neg hal, if_neg hcol]

lemma friendlyPassStep_eq_hit {st : FriendlyPassSt} {j : Nat} {m : EnemyM}
    (h : ¬ st.stopped = true) (hj : st.es[j]? = some m)
    (hal : ¬ m.alive = false)
    (hcol : 0 < m.radius + st.pr.radius ∧
      dist2 m.posx m.posy st.pr.posx st.pr.posy <
        (m.radius + st.pr.radius) * (m.radius + st.pr.radius)) :
    friendlyPassStep st j = applyEnemyHit j st m := by
  rw [friendlyPassStep, if_neg h, hj]
  simp only [if_neg hal, if_pos hcol]

/-- The projectile/hit bookkeeping of one enemy hit. -/
lemma applyEnemyHit_pr (j : Nat) (st : FriendlyPassSt) (m : EnemyM) :
    (applyEnemyHit j st m).hits = st.hits + 1 ∧
    (applyEnemyHit j st m).pr.pierce = st.pr.pierce - 1 ∧
    (applyEnemyHit j st m).pr.hostile = st.pr.hostile ∧
    ((applyEnemyHit j st m).stopped = true ↔ st.pr.pierce - 1 ≤ 0) ∧
    ((applyEnemyHit j st m).stopped = true →
      (applyEnemyHit j st m).pr.ttl = 0) ∧
    ((applyEnemyHit j st m).stopped = false →
      (applyEnemyHit j st m).pr.ttl = st.pr.ttl) := by
  unfold applyEnemyHit
  dsimp only
  by_cases hpi : st.pr.pierce - 1 ≤ 0
  · rw [if_pos hpi]
    refine ⟨rfl, rfl, rfl, ?_, fun _ => rfl, ?_⟩
    · simp [hpi]
    · intro hc; cases hc
  · rw [if_neg hpi]
    refine ⟨rfl, rfl, rfl, ?_, ?_, fun _ => rfl⟩
    · simp [hpi]
    · intro hc; cases hc

/-- The invariant threaded through the friendly pass: pierce equals the
initial pierce minus the hits so far, the loop stops exactly when pierce
is exhausted (forcing `ttl = 0`), and ttl is untouched until then. -/
def PierceInv (pr0 : ProjM) (st : FriendlyPassSt) : Prop :=
  st.pr.pierce = pr0.pierce - (st.hits : Int) ∧
  st.pr.hostile = pr0.hostile ∧
  (st.stopped = false → 0 < st.pr.pierce ∧ st.pr.ttl = pr0.ttl) ∧
  (st.stopped = true → st.pr.pierce = 0 ∧ st.pr.ttl = 0)

lemma friendlyPassStep_pierceInv (pr0 : ProjM) (st : FriendlyPassSt)
    (j : Nat) (h : PierceInv pr0 st) :
    PierceInv pr0 (friendlyPassStep st j) := by
  by_cases hstop : st.stopped = true
  · rw [friendlyPassStep_eq_stopped hstop]; exact h
  · cases hj : st.es[j]? with
    | none => rw [friendlyPassStep_eq_gap hstop hj]; exact h
    | some m =>
      by_cases hal : m.alive = false
      · rw [friendlyPassStep_eq_dead hstop hj hal]; exact h
      · by_cases hcol : 0 < m.radius + st.pr.radius ∧
            dist2 m.posx m.posy st.pr.posx st.pr.posy <
              (m.radius + st.pr.radius) * (m.radius + st.pr.radius)
        · rw [friendlyPassStep_eq_hit hstop hj hal hcol]
          obtain ⟨hhits, hpierce, hhostile, hsiff, hst0, hsf⟩ :=
            applyEnemyHit_pr j st m
          obtain ⟨h1, h2, h3, h4⟩ := h
          have hnst : st.stopped = false := by
            cases hv : st.stopped
            · rfl
            · exact absurd hv hstop
          obtain ⟨hpos, httl⟩ := h3 hnst
          refine ⟨?_, ?_, ?_, ?_⟩
          · rw [hpierce, hhits, h1]; push_cast; ring
          · rw [hhostile, h2]
          · intro hs
            have hgt : ¬ st.pr.pierce - 1 ≤ 0 := by
              intro hc
              exact absurd (hsiff.2 hc) (by rw [hs]; exact Bool.false_ne_true)
            constructor
            · rw [hpierce]; omega
            · rw [hsf hs, httl]
          · intro hs
            have hle : st.pr.pierce - 1 ≤ 0 := hsiff.1 hs
            constructor
            · rw [hpierce]; omega
            · exact hst0 hs
        · rw [friendlyPassStep_eq_miss hstop hj hal hcol]; exact h
lemma friendlyPass_pierceInv (pr0 : ProjM) (es : List EnemyM)
    (pl : PlayerM) (hN : 1 ≤ pr0.pierce) :
    PierceInv pr0 (friendlyPass pr0 es pl) := by
  unfold friendlyPass
  refine foldl_inv (PierceInv pr0) friendlyPassStep
    (fun st j hst => friendlyPassStep_pierceInv pr0 st j hst)
    (List.range es.length) _ ?_
  refine ⟨?_, rfl, fun _ => ⟨?_, rfl⟩, ?_⟩
  · show pr0.pierce = pr0.pierce - ((0 : Nat) : Int)
    push_cast
    ring
  · show 0 < pr0.pierce
    omega
  · intro hc
    cases hc

/-- If no living enemy collides with the projectile, the friendly pass
leaves the whole state unchanged (in particular `hits = 0`). -/
lemma friendlyPass_no_collision (pr0 : ProjM) (es : List EnemyM)
    (pl : PlayerM)
    (h : ∀ m ∈ es, ¬ (m.alive = true ∧
      (0 < m.radius + pr0.radius ∧
        dist2 m.posx m.posy pr0.posx pr0.posy <
          (m.radius + pr0.radius) * (m.radius + pr0.radius)))) :
    friendlyPass pr0 es pl =
      { es := es, pl := pl, pr := pr0, hits := 0, stopped := false } := by
  unfold friendlyPass
  refine foldl_inv
    (fun st => st =
      { es := es, pl := pl, pr := pr0, hits := 0, stopped := false })
    friendlyPassStep ?_ (List.range es.length) _ rfl
  intro st j hst
  subst hst
  cases hj : es[j]? with
  | none => rw [friendlyPassStep_eq_gap (fun hc => absurd hc Bool.false_ne_true) hj]
  | some m =>
    have hm : m ∈ es :=
      List.get?_mem (by rw [List.get?_eq_getElem?]; exact hj)
    by_cases hal : m.alive = false
    · rw [friendlyPassStep_eq_dead (fun hc => absurd hc Bool.false_ne_true)
        hj hal]
    · have halt : m.alive = true := by
        cases hv : m.alive
        · exact absurd hv hal
        · rfl
      refine friendlyPassStep_eq_miss
        (fun hc => absurd hc Bool.false_ne_true) hj hal ?_
      intro hcol
      exact h m hm ⟨halt, hcol⟩

/-- The friendly-projectile per-tick contract (over the updated position
`pos + vel*dt`, written out): pierce bookkeeping, the removal condition,
and the wall case. -/
lemma projTick_friendly_spec (d : DungeonM) (dt : ℚ) (dodged : Bool)
    (pr : ProjM) (es : List EnemyM) (pl : PlayerM)
    (hh : pr.hostile = false) (hp : 1 ≤ pr.pierce) :
    (projTick d dt dodged pr es pl).1.pierce =
        pr.pierce - ((projTick d dt dodged pr es pl).2.2.2 : Int) ∧
    ((projTick d dt dodged pr es pl).2.2.2 : Int) ≤ pr.pierce ∧
    (projTick d dt dodged pr es pl).1.hostile = false ∧
    ((projTick d dt dodged pr es pl).1.ttl ≤ 0 ↔
      solidAtPx d (pr.posx + pr.velx * dt) (pr.posy + pr.vely * dt) = true ∨
      pr.ttl - dt ≤ 0 ∨
      ((projTick d dt dodged pr es pl).2.2.2 : Int) = pr.pierce) ∧
    (solidAtPx d (pr.posx + pr.velx * dt) (pr.posy + pr.vely * dt) = true →
      (projTick d dt dodged pr es pl).2.2.2 = 0 ∧
      (projTick d dt dodged pr es pl).1.pierce = pr.pierce) := by
  unfold projTick
  dsimp only
  by_cases hw : solidAtPx d (pr.posx + pr.velx * dt)
      (pr.posy + pr.vely * dt) = true
  · rw [if_pos hw]
    refine ⟨?_, ?_, hh, ?_, fun _ => ⟨rfl, rfl⟩⟩
    · show pr.pierce = pr.pierce - ((0 : Nat) : Int)
      push_cast
      ring
    · show ((0 : Nat) : Int) ≤ pr.pierce
      push_cast
      omega
    · constructor
      · intro _
        exact Or.inl hw
      · intro _
        show (0 : ℚ) ≤ 0
        exact le_refl 0
  · rw [if_neg hw, if_neg (show ¬ pr.hostile = true by
      rw [hh]; exact Bool.false_ne_true)]
    have hN1 : 1 ≤ ({ pr with
        ttl := pr.ttl - dt
        posx := pr.posx + pr.velx * dt
        posy := pr.posy + pr.vely * dt
        trailTimer :=
          if 3 / 100 < pr.trailTimer + dt then 0
          else pr.trailTimer + dt } : ProjM).pierce := hp
    obtain ⟨h1, h2, h3, h4⟩ := friendlyPass_pierceInv _ es pl hN1
    set st := friendlyPass ({ pr with
        ttl := pr.ttl - dt
        posx := pr.posx + pr.velx * dt
        posy := pr.posy + pr.vely * dt
        trailTimer :=
          if 3 / 100 < pr.trailTimer + dt then 0
          else pr.trailTimer + dt } : ProjM) es pl with hst
    dsimp only
    have h1s : st.pr.pierce = pr.pierce - (st.hits : Int) := h1
    have h2s : st.pr.hostile = false := by
      rw [h2]
      exact hh
    have h3s : st.stopped = false →
        0 < st.pr.pierce ∧ st.pr.ttl = pr.ttl - dt := h3
    have h4s : st.stopped = true →
        st.pr.pierce = 0 ∧ st.pr.ttl = 0 := h4
    have hhits_le : (st.hits : Int) ≤ pr.pierce := by
      cases hv : st.stopped
      · have hgt := (h3s hv).1
        omega
      · have hz := (h4s hv).1
        omega
    refine ⟨h1s, hhits_le, h2s, ?_, fun hc => absurd hc hw⟩
    cases hv : st.stopped
    · obtain ⟨hpos, httl⟩ := h3s hv
      rw [httl]
      constructor
      · intro hle
        exact Or.inr (Or.inl hle)
      · intro hor
        rcases hor with hc | hc | hc
        · exact absurd hc hw
        · exact hc
        · omega
    · obtain ⟨hpz, httl⟩ := h4s hv
      rw [httl]
      constructor
      · intro _
        exact Or.inr (Or.inr (by omega))
      · intro _
        exact le_refl 0

lemma friendlyPass_hostile (pr0 : ProjM) (es : List EnemyM)
    (pl : PlayerM) :
    (friendlyPass pr0 es pl).pr.hostile = pr0.hostile := by
  unfold friendlyPass
  refine foldl_inv (fun st : FriendlyPassSt => st.pr.hostile = pr0.hostile)
    friendlyPassStep ?_ (List.range es.length) _ rfl
  intro st j hst
  by_cases hstop : st.stopped = true
  · rw [friendlyPassStep_eq_stopped hstop]; exact hst
  · cases hj : st.es[j]? with
    | none => rw [friendlyPassStep_eq_gap hstop hj]; exact hst
    | some m =>
      by_cases hal : m.alive = false
      · rw [friendlyPassStep_eq_dead hstop hj hal]; exact hst
      · by_cases hcol : 0 < m.radius + st.pr.radius ∧
            dist2 m.posx m.posy st.pr.posx st.pr.posy <
              (m.radius + st.pr.radius) * (m.radius + st.pr.radius)
        · rw [friendlyPassStep_eq_hit hstop hj hal hcol]
          rw [(applyEnemyHit_pr j st m).2.2.1, hst]
        · rw [friendlyPassStep_eq_miss hstop hj hal hcol]; exact hst

/-- The projectile's hostility flag survives any tick. -/
lemma projTick_hostile_eq (d : DungeonM) (dt : ℚ) (dodged : Bool)
    (pr : ProjM) (es : List EnemyM) (pl : PlayerM) (hh : pr.hostile = false) :
    (projTick d dt dodged pr es pl).1.hostile = false := by
  unfold projTick
  dsimp only
  split
  · exact hh
  · rw [hh, if_neg Bool.false_ne_true]
    rw [friendlyPass_hostile]

lemma chestPass_guard (pr : ProjM) (chests : List ChestM)
    (h : pr.hostile = true ∨ pr.ttl ≤ 0) :
    chestPass pr chests = (pr, chests, 0) := by
  rw [chestPass, if_pos h]

lemma cratePass_guard (pr : ProjM) (crates : List CrateM)
    (h : pr.hostile = true ∨ pr.ttl ≤ 0) :
    cratePass pr crates = (pr, crates, 0) := by
  rw [cratePass, if_pos h]

/-- Shape analysis of the chest pass: no hit, a non-exhausting hit, or an
exhausting hit that also removes the projectile. -/
lemma chestPass_cases (pr : ProjM) (chests : List ChestM) :
    chestPass pr chests = (pr, chests, 0) ∨
    (¬ pr.pierce - 1 ≤ 0 ∧ ∃ cs, chestPass pr chests =
      ({ pr with pierce := pr.pierce - 1 }, cs, 1)) ∨
    (pr.pierce - 1 ≤ 0 ∧ ∃ cs, chestPass pr chests =
      ({ pr with pierce := pr.pierce - 1, ttl := 0 }, cs, 1)) := by
  by_cases hg : pr.hostile = true ∨ pr.ttl ≤ 0
  · exact Or.inl (chestPass_guard pr chests hg)
  · cases hidx : chestHitIdx pr chests with
    | none =>
      refine Or.inl ?_
      simp only [chestPass, if_neg hg, hidx]
    | some k =>
      cases hck : chests[k]? with
      | none =>
        refine Or.inl ?_
        simp only [chestPass, if_neg hg, hidx, hck]
      | some c =>
        by_cases hpi : pr.pierce - 1 ≤ 0
        · refine Or.inr (Or.inr ⟨hpi,
            chests.set k (if c.hp - 1 ≤ 0 then
              { c with hp := c.hp - 1, alive := false, hitFlash := 15 / 100 }
            else { c with hp := c.hp - 1, hitFlash := 15 / 100 }), ?_⟩)
          simp only [chestPass, if_neg hg, hidx, hck, if_pos hpi]
        · refine Or.inr (Or.inl ⟨hpi,
            chests.set k (if c.hp - 1 ≤ 0 then
              { c with hp := c.hp - 1, alive := false, hitFlash := 15 / 100 }
            else { c with hp := c.hp - 1, hitFlash := 15 / 100 }), ?_⟩)
          simp only [chestPass, if_neg hg, hidx, hck, if_neg hpi]

/-- Shape analysis of the crate pass. -/
lemma cratePass_cases (pr : ProjM) (crates : List CrateM) :
    cratePass pr crates = (pr, crates, 0) ∨
    (¬ pr.pierce - 1 ≤ 0 ∧ ∃ cs, cratePass pr crates =
      ({ pr with pierce := pr.pierce - 1 }, cs, 1)) ∨
    (pr.pierce - 1 ≤ 0 ∧ ∃ cs, cratePass pr crates =
      ({ pr with pierce := pr.pierce - 1, ttl := 0 }, cs, 1)) := by
  by_cases hg : pr.hostile = true ∨ pr.ttl ≤ 0
  · exact Or.inl (cratePass_guard pr crates hg)
  · cases hidx : crateHitIdx pr crates with
    | none =>
      refine Or.inl ?_
      simp only [cratePass, if_neg hg, hidx]
    | some k =>
      cases hck : crates[k]? with
      | none =>
        refine Or.inl ?_
        simp only [cratePass, if_neg hg, hidx, hck]
      | some c =>
        by_cases hpi : pr.pierce - 1 ≤ 0
        · refine Or.inr (Or.inr ⟨hpi,
            crates.set k (if c.hp - 1 ≤ 0 then
              { c with hp := c.hp - 1, alive := false, hitFlash := 12 / 100 }
            else { c with hp := c.hp - 1, hitFlash := 12 / 100 }), ?_⟩)
          simp only [cratePass, if_neg hg, hidx, hck, if_pos hpi]
        · refine Or.inr (Or.inl ⟨hpi,
            crates.set k (if c.hp - 1 ≤ 0 then
              { c with hp := c.hp - 1, alive := false, hitFlash := 12 / 100 }
            else { c with hp := c.hp - 1, hitFlash := 12 / 100 }), ?_⟩)
          simp only [cratePass, if_neg hg, hidx, hck, if_neg hpi]

lemma chestHitIdx_none (pr : ProjM) (chests : List ChestM)
    (h : ∀ c ∈ chests, ¬ (c.alive = true ∧ 0 < 20 + pr.radius ∧
      dist2 c.posx c.posy pr.posx pr.posy <
        (20 + pr.radius) * (20 + pr.radius))) :
    chestHitIdx pr chests = none := by
  rw [chestHitIdx, List.find?_eq_none]
  intro k _
  cases hc : chests[k]? with
  | none => simp
  | some c =>
    have hm : c ∈ chests :=
      List.get?_mem (by rw [List.get?_eq_getElem?]; exact hc)
    simp only [Bool.and_eq_true, decide_eq_true_eq]
    intro hcon
    exact h c hm hcon

lemma crateHitIdx_none (pr : ProjM) (crates : List CrateM)
    (h : ∀ c ∈ crates, ¬ (c.alive = true ∧ 0 < 20 + pr.radius ∧
      dist2 c.posx c.posy pr.posx pr.posy <
        (20 + pr.radius) * (20 + pr.radius))) :
    crateHitIdx pr crates = none := by
  rw [crateHitIdx, List.find?_eq_none]
  intro k _
  cases hc : crates[k]? with
  | none => simp
  | some c =>
    have hm : c ∈ crates :=
      List.get?_mem (by rw [List.get?_eq_getElem?]; exact hc)
    simp only [Bool.and_eq_true, decide_eq_true_eq]
    intro hcon
    exact h c hm hcon

lemma chestPass_no_collision (pr : ProjM) (chests : List ChestM)
    (h : ∀ c ∈ chests, ¬ (c.alive = true ∧ 0 < 20 + pr.radius ∧
      dist2 c.posx c.posy pr.posx pr.posy <
        (20 + pr.radius) * (20 + pr.radius))) :
    chestPass pr chests = (pr, chests, 0) := by
  by_cases hg : pr.hostile = true ∨ pr.ttl ≤ 0
  · exact chestPass_guard pr chests hg
  · rw [chestPass, if_neg hg, chestHitIdx_none pr chests h]

lemma cratePass_no_collision (pr : ProjM) (crates : List CrateM)
    (h : ∀ c ∈ crates, ¬ (c.alive = true ∧ 0 < 20 + pr.radius ∧
      dist2 c.posx c.posy pr.posx pr.posy <
        (20 + pr.radius) * (20 + pr.radius))) :
    cratePass pr crates = (pr, crates, 0) := by
  by_cases hg : pr.hostile = true ∨ pr.ttl ≤ 0
  · exact cratePass_guard pr crates hg
  · rw [cratePass, if_neg hg, crateHitIdx_none pr crates h]

/-- Per-pass contract of the chest pass on a live friendly projectile:
pierce drops by the number of chest hits (0 or 1), the projectile dies
in the pass iff the hit exhausted its pierce, and ttl is untouched
otherwise. -/
lemma chestPass_step_spec (pr : ProjM) (chests : List ChestM)
    (hh : pr.hostile = false) (hp : 1 ≤ pr.pierce) (httl : 0 < pr.ttl) :
    (chestPass pr chests).1.pierce =
        pr.pierce - ((chestPass pr chests).2.2 : Int) ∧
    (chestPass pr chests).2.2 ≤ 1 ∧
    (chestPass pr chests).1.hostile = false ∧
    ((chestPass pr chests).1.ttl ≤ 0 ↔
      ((chestPass pr chests).2.2 : Int) = pr.pierce) ∧
    (¬ ((chestPass pr chests).2.2 : Int) = pr.pierce →
      (chestPass pr chests).1.ttl = pr.ttl) := by
  rcases chestPass_cases pr chests with hc | ⟨hgt, cs, hc⟩ | ⟨hle, cs, hc⟩
  · rw [hc]
    refine ⟨?_, ?_, hh, ?_, fun _ => rfl⟩
    · show pr.pierce = pr.pierce - ((0 : Nat) : Int)
      push_cast
      ring
    · show (0 : Nat) ≤ 1
      omega
    · show pr.ttl ≤ 0 ↔ ((0 : Nat) : Int) = pr.pierce
      constructor
      · intro hl
        exact absurd hl (not_le.2 httl)
      · intro hr
        exact absurd hr (by push_cast; omega)
  · rw [hc]
    refine ⟨?_, ?_, hh, ?_, fun _ => rfl⟩
    · show pr.pierce - 1 = pr.pierce - ((1 : Nat) : Int)
      push_cast
      ring
    · show (1 : Nat) ≤ 1
      omega
    · show pr.ttl ≤ 0 ↔ ((1 : Nat) : Int) = pr.pierce
      constructor
      · intro hl
        exact absurd hl (not_le.2 httl)
      · intro hr
        exact absurd hr (by push_cast; omega)
  · rw [hc]
    refine ⟨?_, ?_, hh, ?_, ?_⟩
    · show pr.pierce - 1 = pr.pierce - ((1 : Nat) : Int)
      push_cast
      ring
    · show (1 : Nat) ≤ 1
      omega
    · show (0 : ℚ) ≤ 0 ↔ ((1 : Nat) : Int) = pr.pierce
      exact iff_of_true (le_refl 0) (by push_cast; omega)
    · intro hne
      exact absurd (show ((1 : Nat) : Int) = pr.pierce by push_cast; omega)
        hne

/-- Per-pass contract of the crate pass. -/
lemma cratePass_step_spec (pr : ProjM) (crates : List CrateM)
    (hh : pr.hostile = false) (hp : 1 ≤ pr.pierce) (httl : 0 < pr.ttl) :
    (cratePass pr crates).1.pierce =
        pr.pierce - ((cratePass pr crates).2.2 : Int) ∧
    (cratePass pr crates).2.2 ≤ 1 ∧
    (cratePass pr crates).1.hostile = false ∧
    ((cratePass pr crates).1.ttl ≤ 0 ↔
      ((cratePass pr crates).2.2 : Int) = pr.pierce) ∧
    (¬ ((cratePass pr crates).2.2 : Int) = pr.pierce →
      (cratePass pr crates).1.ttl = pr.ttl) := by
  rcases cratePass_cases pr crates with hc | ⟨hgt, cs, hc⟩ | ⟨hle, cs, hc⟩
  · rw [hc]
    refine ⟨?_, ?_, hh, ?_, fun _ => rfl⟩
    · show pr.pierce = pr.pierce - ((0 : Nat) : Int)
      push_cast
      ring
    · show (0 : Nat) ≤ 1
      omega
    · show pr.ttl ≤ 0 ↔ ((0 : Nat) : Int) = pr.pierce
      constructor
      · intro hl
        exact absurd hl (not_le.2 httl)
      · intro hr
        exact absurd hr (by push_cast; omega)
  · rw [hc]
    refine ⟨?_, ?_, hh, ?_, fun _ => rfl⟩
    · show pr.pierce - 1 = pr.pierce - ((1 : Nat) : Int)
      push_cast
      ring
    · show (1 : Nat) ≤ 1
      omega
    · show pr.ttl ≤ 0 ↔ ((1 : Nat) : Int) = pr.pierce
      constructor
      · intro hl
        exact absurd hl (not_le.2 httl)
      · intro hr
        exact absurd hr (by push_cast; omega)
  · rw [hc]
    refine ⟨?_, ?_, hh, ?_, ?_⟩
    · show pr.pierce - 1 = pr.pierce - ((1 : Nat) : Int)
      push_cast
      ring
    · show (1 : Nat) ≤ 1
      omega
    · show (0 : ℚ) ≤ 0 ↔ ((1 : Nat) : Int) = pr.pierce
      exact iff_of_true (le_refl 0) (by push_cast; omega)
    · intro hne
      exact absurd (show ((1 : Nat) : Int) = pr.pierce by push_cast; omega)
        hne

/-- The complete per-tick contract for a friendly projectile: pierce
decreases by exactly the total number of hits (enemies, chests and
crates), the hit total never exceeds the pierce budget, hostility is
preserved, and the projectile is removed at the end of the tick iff it
hit a wall, its ttl expired, or its hits exhausted its pierce. -/
lemma projTickFull_spec (d : DungeonM) (dt : ℚ) (dodged : Bool)
    (pr : ProjM) (es : List EnemyM) (pl : PlayerM) (chests : List ChestM)
    (crates : List CrateM) (hh : pr.hostile = false) (hp : 1 ≤ pr.pierce) :
    (projTickFull d dt dodged pr es pl chests crates).pr.pierce =
      pr.pierce -
        ((projTickFull d dt dodged pr es pl chests crates).hits : Int) ∧
    ((projTickFull d dt dodged pr es pl chests crates).hits : Int)
        ≤ pr.pierce ∧
    (projTickFull d dt dodged pr es pl chests crates).pr.hostile
        = false ∧
    ((projTickFull d dt dodged pr es pl chests crates).pr.ttl ≤ 0 ↔
      solidAtPx d (pr.posx + pr.velx * dt) (pr.posy + pr.vely * dt)
          = true ∨
      pr.ttl - dt ≤ 0 ∨
      ((projTickFull d dt dodged pr es pl chests crates).hits : Int)
          = pr.pierce) := by
  obtain ⟨m1, m2, m3, m4, m5⟩ :=
    projTick_friendly_spec d dt dodged pr es pl hh hp
  unfold projTickFull
  dsimp only
  set r1 : ProjM := (projTick d dt dodged pr es pl).1 with hr1
  set eh : Nat := (projTick d dt dodged pr es pl).2.2.2 with heh
  by_cases hsurv : r1.ttl ≤ 0
  · rw [chestPass_guard r1 chests (Or.inr hsurv)]
    dsimp only
    rw [cratePass_guard r1 crates (Or.inr hsurv)]
    dsimp only
    refine ⟨by omega, by omega, m3, ?_⟩
    refine iff_of_true hsurv ?_
    rcases m4.1 hsurv with hc | hc | hc
    · exact Or.inl hc
    · exact Or.inr (Or.inl hc)
    · exact Or.inr (Or.inr (by omega))
  · have httl1 : 0 < r1.ttl := not_le.1 hsurv
    have hneN : ¬ (eh : Int) = pr.pierce := fun hc =>
      hsurv (m4.2 (Or.inr (Or.inr hc)))
    have hp1 : 1 ≤ r1.pierce := by omega
    obtain ⟨c1, c2, c3, c4, c5⟩ := chestPass_step_spec r1 chests m3 hp1 httl1
    set q : ProjM := (chestPass r1 chests).1 with hq
    set ch : Nat := (chestPass r1 chests).2.2 with hch
    by_cases hcx : (ch : Int) = r1.pierce
    · have hqttl : q.ttl ≤ 0 := c4.2 hcx
      rw [cratePass_guard q crates (Or.inr hqttl)]
      dsimp only
      refine ⟨by omega, by omega, c3, ?_⟩
      exact iff_of_true hqttl (Or.inr (Or.inr (by omega)))
    · have hqttl : q.ttl = r1.ttl := c5 hcx
      have hqpos : 0 < q.ttl := by rw [hqttl]; exact httl1
      have hq1 : 1 ≤ q.pierce := by omega
      obtain ⟨k1, k2, k3, k4, k5⟩ := cratePass_step_spec q crates c3 hq1 hqpos
      set w2 : ProjM := (cratePass q crates).1 with hw2
      set cr : Nat := (cratePass q crates).2.2 with hcr
      by_cases hcy : (cr : Int) = q.pierce
      · have hwttl : w2.ttl ≤ 0 := k4.2 hcy
        refine ⟨by omega, by omega, k3, ?_⟩
        exact iff_of_true hwttl (Or.inr (Or.inr (by omega)))
      · have hwttl : w2.ttl = q.ttl := k5 hcy
        refine ⟨by omega, by omega, k3, ?_⟩
        refine iff_of_false ?_ ?_
        · rw [hwttl, hqttl]
          exact hsurv
        · intro hor
          rcases hor with hc | hc | hc
          · exact hsurv (m4.2 (Or.inl hc))
          · exact hsurv (m4.2 (Or.inr (Or.inl hc)))
          · omega

/-- A wall hit removes the projectile with no hit scored and pierce
intact; the chest and crate passes are skipped for the removed
projectile. -/
lemma projTickFull_wall (d : DungeonM) (dt : ℚ) (dodged : Bool)
    (pr : ProjM) (es : List EnemyM) (pl : PlayerM) (chests : List ChestM)
    (crates : List CrateM) (hh : pr.hostile = false) (hp : 1 ≤ pr.pierce)
    (hw : solidAtPx d (pr.posx + pr.velx * dt) (pr.posy + pr.vely * dt)
      = true) :
    (projTickFull d dt dodged pr es pl chests crates).hits = 0 ∧
    (projTickFull d dt dodged pr es pl chests crates).pr.pierce
        = pr.pierce ∧
    (projTickFull d dt dodged pr es pl chests crates).pr.ttl ≤ 0 := by
  obtain ⟨m1, m2, m3, m4, m5⟩ :=
    projTick_friendly_spec d dt dodged pr es pl hh hp
  obtain ⟨hm0, hmp⟩ := m5 hw
  have hsurv : (projTick d dt dodged pr es pl).1.ttl ≤ 0 :=
    m4.2 (Or.inl hw)
  unfold projTickFull
  dsimp only
  rw [chestPass_guard _ chests (Or.inr hsurv)]
  dsimp only
  rw [cratePass_guard _ crates (Or.inr hsurv)]
  dsimp only
  exact ⟨by omega, hmp, hsurv⟩

/-- When nothing collides this tick — no living enemy, chest or crate in
range, no wall — no hit is scored and pierce is unchanged. -/
lemma projTickFull_no_collision (d : DungeonM) (dt : ℚ) (dodged : Bool)
    (pr : ProjM) (es : List EnemyM) (pl : PlayerM) (chests : List ChestM)
    (crates : List CrateM) (hh : pr.hostile = false)
    (hne : ∀ m ∈ es, ¬ (m.alive = true ∧
      (0 < m.radius + pr.radius ∧
        dist2 m.posx m.posy (pr.posx + pr.velx * dt)
            (pr.posy + pr.vely * dt) <
          (m.radius + pr.radius) * (m.radius + pr.radius))))
    (hnc : ∀ c ∈ chests, ¬ (c.alive = true ∧ 0 < 20 + pr.radius ∧
      dist2 c.posx c.posy (pr.posx + pr.velx * dt)
          (pr.posy + pr.vely * dt) <
        (20 + pr.radius) * (20 + pr.radius)))
    (hnr : ∀ c ∈ crates, ¬ (c.alive = true ∧ 0 < 20 + pr.radius ∧
      dist2 c.posx c.posy (pr.posx + pr.velx * dt)
          (pr.posy + pr.vely * dt) <
        (20 + pr.radius) * (20 + pr.radius)))
    (hw : solidAtPx d (pr.posx + pr.velx * dt) (pr.posy + pr.vely * dt)
      = false) :
    (projTickFull d dt dodged pr es pl chests crates).hits = 0 ∧
    (projTickFull d dt dodged pr es pl chests crates).pr.pierce
        = pr.pierce := by
  unfold projTickFull projTick
  dsimp only
  rw [if_neg (show ¬ solidAtPx d (pr.posx + pr.velx * dt)
      (pr.posy + pr.vely * dt) = true by
    rw [hw]; exact Bool.false_ne_true)]
  rw [if_neg (show ¬ pr.hostile = true by
    rw [hh]; exact Bool.false_ne_true)]
  rw [friendlyPass_no_collision _ es pl hne]
  dsimp only
  rw [chestPass_no_collision _ chests hnc]
  dsimp only
  rw [cratePass_no_collision _ crates hnr]
  exact ⟨rfl, rfl⟩

/-- Across a projectile's whole lifetime: while it survives, the total
hit count stays below the initial pierce and the pierce field equals the
initial pierce minus the hits. -/
lemma projRun_spec (d : DungeonM) :
    ∀ (envs : List TickEnv) (pr : ProjM), pr.hostile = false →
      1 ≤ pr.pierce →
      ∀ pr2 h, projRun d envs pr = (some pr2, h) →
        pr2.pierce = pr.pierce - (h : Int) ∧ (h : Int) < pr.pierce ∧
        pr2.hostile = false ∧ 1 ≤ pr2.pierce := by
  intro envs
  induction envs with
  | nil =>
    intro pr hh hp pr2 h heq
    rw [projRun] at heq
    have hpr := Option.some.inj (congrArg Prod.fst heq)
    have hh0 : (0 : Nat) = h := congrArg Prod.snd heq
    subst hpr
    refine ⟨?_, ?_, hh, hp⟩
    · rw [← hh0]; push_cast; ring
    · rw [← hh0]; push_cast; omega
  | cons env rest ih =>
    intro pr hh hp pr2 h heq
    rw [projRun] at heq
    dsimp only at heq
    obtain ⟨f1, f2, f3, f4⟩ := projTickFull_spec d env.dt env.dodged pr
      env.es env.pl env.chests env.crates hh hp
    by_cases hrm : (projTickFull d env.dt env.dodged pr env.es env.pl
        env.chests env.crates).pr.ttl ≤ 0
    · rw [if_pos hrm] at heq
      exact absurd (congrArg Prod.fst heq) (by simp)
    · rw [if_neg hrm] at heq
      have hne : ((projTickFull d env.dt env.dodged pr env.es env.pl
          env.chests env.crates).hits : Int) ≠ pr.pierce := by
        intro hc
        exact hrm (f4.2 (Or.inr (Or.inr hc)))
      have hph : 1 ≤ (projTickFull d env.dt env.dodged pr env.es env.pl
          env.chests env.crates).pr.pierce := by omega
      have hfst := congrArg Prod.fst heq
      have hsnd := congrArg Prod.snd heq
      dsimp only at hfst hsnd
      obtain ⟨ha, hb, hc2, hd2⟩ :=
        ih (projTickFull d env.dt env.dodged pr env.es env.pl env.chests
            env.crates).pr f3 hph pr2
          (projRun d rest (projTickFull d env.dt env.dodged pr env.es
            env.pl env.chests env.crates).pr).2
          (by rw [← hfst])
      refine ⟨?_, ?_, hc2, hd2⟩
      · rw [ha, f1, ← hsnd]; push_cast; ring
      · omega

/-- **C4.** For every player-owned projectile: per tick, pierce changes
by exactly the total number of actual hits — enemies in the main pass,
plus the chest and crate collision passes, each hit decrementing pierce
by 1 — and `hits = 0` when nothing collides; the projectile is removed
at the end of the tick iff `ttl ≤ 0`, a wall was hit, or pierce is
exhausted (`hits = pierce`); a wall hit removes it immediately with no
hit scored; a projectile with `pierce = 1` is removed by its first
successful hit, scoring exactly that one hit; and over its whole
lifetime a `pierce = N` projectile survives exactly while its cumulative
hits stay below `N`. -/
theorem projectile_pierce_contract :
    (∀ (d : DungeonM) (dt : ℚ) (dodged : Bool) (pr : ProjM)
        (es : List EnemyM) (pl : PlayerM) (chests : List ChestM)
        (crates : List CrateM),
      pr.hostile = false → 1 ≤ pr.pierce →
      (projTickFull d dt dodged pr es pl chests crates).pr.pierce =
          pr.pierce -
            ((projTickFull d dt dodged pr es pl chests
                crates).hits : Int) ∧
      ((projTickFull d dt dodged pr es pl chests crates).pr.ttl ≤ 0 ↔
        solidAtPx d (pr.posx + pr.velx * dt) (pr.posy + pr.vely * dt)
            = true ∨
        pr.ttl - dt ≤ 0 ∨
        ((projTickFull d dt dodged pr es pl chests crates).hits : Int)
            = pr.pierce)) ∧
    (∀ (d : DungeonM) (dt : ℚ) (dodged : Bool) (pr : ProjM)
        (es : List EnemyM) (pl : PlayerM) (chests : List ChestM)
        (crates : List CrateM),
      pr.hostile = false → 1 ≤ pr.pierce →
      solidAtPx d (pr.posx + pr.velx * dt) (pr.posy + pr.vely * dt)
          = true →
      (projTickFull d dt dodged pr es pl chests crates).hits = 0 ∧
      (projTickFull d dt dodged pr es pl chests crates).pr.pierce
          = pr.pierce ∧
      (projTickFull d dt dodged pr es pl chests crates).pr.ttl ≤ 0) ∧
    (∀ (d : DungeonM) (dt : ℚ) (dodged : Bool) (pr : ProjM)
        (es : List EnemyM) (pl : PlayerM) (chests : List ChestM)
        (crates : List CrateM),
      pr.hostile = false →
      (∀ m ∈ es, ¬ (m.alive = true ∧
        (0 < m.radius + pr.radius ∧
          dist2 m.posx m.posy (pr.posx + pr.velx * dt)
              (pr.posy + pr.vely * dt) <
            (m.radius + pr.radius) * (m.radius + pr.radius)))) →
      (∀ c ∈ chests, ¬ (c.alive = true ∧ 0 < 20 + pr.radius ∧
        dist2 c.posx c.posy (pr.posx + pr.velx * dt)
            (pr.posy + pr.vely * dt) <
          (20 + pr.radius) * (20 + pr.radius))) →
      (∀ c ∈ crates, ¬ (c.alive = true ∧ 0 < 20 + pr.radius ∧
        dist2 c.posx c.posy (pr.posx + pr.velx * dt)
            (pr.posy + pr.vely * dt) <
          (20 + pr.radius) * (20 + pr.radius))) →
      solidAtPx d (pr.posx + pr.velx * dt) (pr.posy + pr.vely * dt)
          = false →
      (projTickFull d dt dodged pr es pl chests crates).hits = 0 ∧
      (projTickFull d dt dodged pr es pl chests crates).pr.pierce
          = pr.pierce) ∧
    (∀ (d : DungeonM) (dt : ℚ) (dodged : Bool) (pr : ProjM)
        (es : List EnemyM) (pl : PlayerM) (chests : List ChestM)
        (crates : List CrateM),
      pr.hostile = false → pr.pierce = 1 →
      1 ≤ (projTickFull d dt dodged pr es pl chests crates).hits →
      (projTickFull d dt dodged pr es pl chests crates).pr.ttl ≤ 0 ∧
      (projTickFull d dt dodged pr es pl chests crates).hits = 1) ∧
    (∀ (d : DungeonM) (envs : List TickEnv) (pr pr2 : ProjM) (h : Nat),
      pr.hostile = false → 1 ≤ pr.pierce →
      projRun d envs pr = (some pr2, h) →
      pr2.pierce = pr.pierce - (h : Int) ∧ (h : Int) < pr.pierce) := by
  refine ⟨?_, ?_, ?_, ?_, ?_⟩
  · intro d dt dodged pr es pl chests crates hh hp
    obtain ⟨f1, _, _, f4⟩ :=
      projTickFull_spec d dt dodged pr es pl chests crates hh hp
    exact ⟨f1, f4⟩
  · intro d dt dodged pr es pl chests crates hh hp hw
    exact projTickFull_wall d dt dodged pr es pl chests crates hh hp hw
  · intro d dt dodged pr es pl chests crates hh hne hnc hnr hw
    exact projTickFull_no_collision d dt dodged pr es pl chests crates
      hh hne hnc hnr hw
  · intro d dt dodged pr es pl chests crates hh hp1 hhit
    obtain ⟨f1, f2, _, f4⟩ := projTickFull_spec d dt dodged pr es pl
      chests crates hh (by rw [hp1])
    have hone : (projTickFull d dt dodged pr es pl chests crates).hits
        = 1 := by
      rw [hp1] at f2
      omega
    refine ⟨?_, hone⟩
    apply f4.2
    refine Or.inr (Or.inr ?_)
    rw [hone, hp1]
    norm_num
  · intro d envs pr pr2 h hh hp heq
    obtain ⟨h1, h2, _, _⟩ := projRun_spec d envs pr hh hp pr2 h heq
    exact ⟨h1, h2⟩

/-- Witness for **C4**: the per-tick contract at a concrete friendly
default projectile in the empty all-floor dungeon with no chests or
crates. -/
theorem projectile_pierce_contract_witness :
    (projTickFull allFloor 0 false {} [] {} [] []).pr.pierce =
        ({} : ProjM).pierce -
          ((projTickFull allFloor 0 false {} [] {} [] []).hits : Int) ∧
    ((projTickFull allFloor 0 false {} [] {} [] []).pr.ttl ≤ 0 ↔
      solidAtPx allFloor
          (({} : ProjM).posx + ({} : ProjM).velx * 0)
          (({} : ProjM).posy + ({} : ProjM).vely * 0) = true ∨
      ({} : ProjM).ttl - 0 ≤ 0 ∨
      ((projTickFull allFloor 0 false {} [] {} [] []).hits : Int)
          = ({} : ProjM).pierce) :=
  projectile_pierce_contract.1 allFloor 0 false {} [] {} [] [] rfl
    (by norm_num)

lemma levelLoopGo_post (vit bHp en bMana : Int) :
    ∀ fuel s, 1 ≤ s.xpToNext → s.xp < fuel →
      (levelLoopGo vit bHp en bMana fuel s).xp <
        (levelLoopGo vit bHp en bMana fuel s).xpToNext := by
  intro fuel
  induction fuel with
  | zero => intro s _ h; omega
  | succ n ih =>
    intro s h1 hlt
    rw [levelLoopGo]
    by_cases hc : s.xpToNext ≤ s.xp
    · rw [if_pos hc]
      apply ih
      · show 1 ≤ s.xpToNext * 27 / 20
        have : 1 * 20 ≤ s.xpToNext * 27 := by omega
        exact (Nat.le_div_iff_mul_le (by norm_num)).2 this
      · show s.xp - s.xpToNext < n
        omega
    · rw [if_neg hc]
      omega

/-- After the whole loop, `xp < xp_to_next`. -/
lemma levelLoop_post (vit bHp en bMana : Int) (s : LevelUpSt)
    (h : 1 ≤ s.xpToNext) :
    (levelLoop vit bHp en bMana s).xp < (levelLoop vit bHp en bMana s).xpToNext :=
  levelLoopGo_post vit bHp en bMana (s.xp + 1) s h (by omega)

/-- **C1.** For every damage application to the player while the player has
shield points (`shield > 0`), the shield absorbs `min(shield, dmg)`, the
shield decreases by exactly that amount, and only the remainder
`dmg - absorb` is subtracted from hp; concretely, `shield = 10, hp = 100`
and 15 incoming damage yield `shield = 0, hp = 95`. -/
theorem shield_absorbs_first :
    (∀ shield hp dmg : Int, 0 < shield →
      (applyShieldDamage shield hp dmg).1 = shield - min shield dmg ∧
      (applyShieldDamage shield hp dmg).2 = hp - (dmg - min shield dmg)) ∧
    applyShieldDamage 10 100 15 = (0, 95) := by
  constructor
  · intro s hp d hs
    rw [applyShieldDamage_pos s hp d hs]
    refine ⟨rfl, ?_⟩
    by_cases hd : 0 < d - min s d
    · rw [if_pos hd]
    · rw [if_neg hd]; omega
  · decide

/-- Witness for **C1**: the general law applied at `shield=10, hp=100, dmg=15`. -/
theorem shield_absorbs_first_witness :
    (applyShieldDamage 10 100 15).1 = 10 - min 10 15 ∧
    (applyShieldDamage 10 100 15).2 = 100 - (15 - min 10 15) :=
  shield_absorbs_first.1 10 100 15 (by decide)

/-- **C10.** After every damage application the player's shield stays
non-negative: the absorb amount `min(shield, dmg)` never exceeds the
shield, so subtracting it cannot drive the shield below 0, however large
the incoming damage is. -/
theorem shield_stays_nonneg (shield hp dmg : Int) (h : 0 ≤ shield) :
    0 ≤ (applyShieldDamage shield hp dmg).1 := by
  by_cases hs : 0 < shield
  · rw [applyShieldDamage_pos shield hp dmg hs]
    simp only
    omega
  · simp only [applyShieldDamage, if_neg hs]
    split <;> simpa using h

/-- Witness for **C10**: `shield = 70` hit for 500 damage stays `≥ 0`. -/
theorem shield_stays_nonneg_witness :
    0 ≤ (applyShieldDamage 70 100 500).1 :=
  shield_stays_nonneg 70 100 500 (by decide)

/-- **C3.** The XP handling of `on_enemy_dead` runs a `while xp >= xp_to_next`
loop (each iteration subtracting `xp_to_next` and growing it by the factor
1.35, integer-truncated) and terminates with `xp < xp_to_next`; starting
from `xp_to_next = 40`, `xp = 35` and gaining 50 xp (wave 44 gives
`6 + 44 = 50`) yields exactly one level-up with `xp = 45`,
`xp_to_next = 54`, and no second level-up fires. -/
theorem levelup_loop_postcondition :
    (∀ (vit bHp en bMana : Int) (wave : Nat) (s : LevelUpSt), 1 ≤ s.xpToNext →
      (onEnemyDeadXp vit bHp en bMana wave s).xp <
        (onEnemyDeadXp vit bHp en bMana wave s).xpToNext) ∧
    ((onEnemyDeadXp 12 0 8 0 44
        { xp := 35, xpToNext := 40, level := 1, hp := 100, mana := 50,
          statPoints := 0, skillPoints := 0 }).xp = 45 ∧
     (onEnemyDeadXp 12 0 8 0 44
        { xp := 35, xpToNext := 40, level := 1, hp := 100, mana := 50,
          statPoints := 0, skillPoints := 0 }).xpToNext = 54 ∧
     (onEnemyDeadXp 12 0 8 0 44
        { xp := 35, xpToNext := 40, level := 1, hp := 100, mana := 50,
          statPoints := 0, skillPoints := 0 }).level = 2) := by
  constructor
  · intro vit bHp en bMana wave s h
    exact levelLoop_post vit bHp en bMana _ h
  · refine ⟨by decide, by decide, by decide⟩

/-- Witness for **C3**: the postcondition applied at a concrete state. -/
theorem levelup_loop_postcondition_witness :
    (onEnemyDeadXp 12 0 8 0 3
        { xp := 0, xpToNext := 40, level := 1, hp := 100, mana := 50,
          statPoints := 0, skillPoints := 0 }).xp <
      (onEnemyDeadXp 12 0 8 0 3
        { xp := 0, xpToNext := 40, level := 1, hp := 100, mana := 50,
          statPoints := 0, skillPoints := 0 }).xpToNext :=
  levelup_loop_postcondition.1 12 0 8 0 3 _ (by decide)

end DungeonCrawl
